import Mathlib

/-!
Verification of the DS-PAL analysis engine (`app/services/analysis_engine.py`
and the column classifier of `app/services/dataset_loader.py`) against its
natural-language specification.

Modelling conventions (shallow embedding):
* A pandas DataFrame is a list of named columns; a column is a dtype together
  with a list of cells.  Floats are modelled as exact rationals.
* External library primitives whose exact behaviour is data-format dependent
  (string-to-number parsing, string-to-datetime parsing, float printing) are
  abstracted into a context structure `PdCtx`; every theorem quantifies over
  the context.
* sklearn primitives with a documented algebraic contract are embedded
  directly: `LabelEncoder.fit_transform` maps each value to its index in the
  sorted list of distinct values (`classes_`), and `pd.get_dummies` emits one
  indicator column per distinct value in sorted order (dropping the first when
  `drop_first=True`).  The `StandardScaler` is irrelevant to every claim and is
  abstracted as a context function.
-/

/- Batteries marks the rational arithmetic operations irreducible, which
prevents concrete instances of the definitions below from evaluating inside
decide.  Restoring the default reducibility is purely an elaboration hint;
kernel checking is unaffected. -/
set_option allowUnsafeReducibility true in
attribute [semireducible] Rat.mul Rat.add Rat.sub Rat.inv Rat.ofScientific

/-- Date components that the engine extracts from a datetime value. -/
structure DateV where
  month : Nat
  dow : Nat
  hour : Nat
deriving DecidableEq, Repr

/-- A single cell of a pandas column: a number, a string, a Python bool, a
datetime value, or a missing value (NaN/None/NaT). -/
inductive Cell where
  | num (q : ℚ)
  | str (s : String)
  | pybool (b : Bool)
  | date (d : DateV)
  | missing
deriving DecidableEq, Repr

/-- The pandas dtype of a column. -/
inductive Dtype where
  | numeric
  | boolean
  | object
  | datetime
deriving DecidableEq, Repr

/-- A pandas column: its dtype and its cells (one per row). -/
structure Col where
  dtype : Dtype
  cells : List Cell
deriving DecidableEq, Repr

/-- A pandas DataFrame: an ordered list of named columns. -/
abbrev DF := List (String × Col)

/-- Context of external-library primitives: how pandas parses a string as a
number (`pd.to_numeric`), parses a string or a number as a datetime
(`pd.to_datetime`), and prints a float (`str`). -/
structure PdCtx where
  parseNum : String → Option ℚ
  parseDate : String → Option DateV
  numDate : ℚ → Option DateV
  showNum : ℚ → String
  showDate : DateV → String

namespace Cell

/-- Python equality between cell values: `True == 1` and `False == 0` hold in
Python, strings are only equal to strings. -/
def pyEq : Cell → Cell → Bool
  | num a, num b => a == b
  | num a, pybool b => a == (if b then (1 : ℚ) else 0)
  | pybool a, num b => (if a then (1 : ℚ) else 0) == b
  | pybool a, pybool b => a == b
  | str a, str b => a == b
  | date a, date b => a == b
  | missing, missing => true
  | _, _ => false

/-- True when the cell is a missing value (NaN/None/NaT). -/
def isMissing : Cell → Bool
  | missing => true
  | _ => false

/-- Python str() of a cell, as used by `series.astype(str)`. -/
def pyStr (ctx : PdCtx) : Cell → String
  | num q => ctx.showNum q
  | str s => s
  | pybool b => if b then "True" else "False"
  | date d => ctx.showDate d
  | missing => "nan"

/-- Coercion of a cell to a number, as used by `pd.to_numeric(errors="coerce")`:
numbers pass through, Python bools become 1/0, strings go through the parser,
everything else becomes NaN. -/
def toNum (ctx : PdCtx) : Cell → Option ℚ
  | num q => some q
  | pybool b => some (if b then 1 else 0)
  | str s => ctx.parseNum s
  | _ => none

/-- Coercion of a cell to a datetime, as used by
`pd.to_datetime(errors="coerce")`. -/
def toDate (ctx : PdCtx) : Cell → Option DateV
  | date d => some d
  | str s => ctx.parseDate s
  | num q => ctx.numDate q
  | pybool _ => none
  | missing => none

end Cell

/-- Non-null cells of a list, mirroring `series.dropna()`. -/
def nonNullCells (cells : List Cell) : List Cell :=
  cells.filter (fun c => !c.isMissing)

/-- Distinct cells under Python equality, keeping first occurrences; used to
mirror `series.unique()` / `series.nunique()` on object columns. -/
def pyDedup : List Cell → List Cell
  | [] => []
  | c :: cs =>
    if (pyDedup cs).any (fun d => c.pyEq d) then pyDedup cs else c :: pyDedup cs

/-- Number of distinct non-null values of a cell list (`series.nunique()`). -/
def cellNunique (cells : List Cell) : Nat :=
  (pyDedup (nonNullCells cells)).length

namespace Col

/-- Number of rows of the column. -/
def size (c : Col) : Nat := c.cells.length

/-- Number of non-null cells (`series.count()`). -/
def nnCount (c : Col) : Nat := (nonNullCells c.cells).length

end Col

namespace DF

/-- Column names of the frame, in order. -/
def names (df : DF) : List String := df.map (·.1)

/-- Lookup of a column by name (first match). -/
def col? (df : DF) (name : String) : Option Col :=
  (df.find? (fun p => p.1 == name)).map (·.2)

/-- Number of rows of the frame, taken from the first column (0 for an empty
frame, mirroring a frame that only carries an index). -/
def nRows (df : DF) : Nat :=
  match df with
  | [] => 0
  | c :: _ => c.2.size

end DF

/-- Floor of a rational, written so that it evaluates by kernel reduction
(Mathlib Int.floor is opaque to decide); equal to the mathematical floor by
Rat.floor_def. -/
def qFloor (q : ℚ) : ℤ := q.num / (q.den : ℤ)

/-- Python round-half-to-even of a rational to an integer, the semantics of
builtin round() on floats. -/
def pyRoundZ (q : ℚ) : ℤ :=
  let f := qFloor q
  let frac := q - (f : ℚ)
  if frac < 1/2 then f
  else if frac > 1/2 then f + 1
  else if f % 2 = 0 then f else f + 1

/-- Python round(q, n): round half to even at the n-th decimal. -/
def pyRoundTo (n : Nat) (q : ℚ) : ℚ :=
  (pyRoundZ (q * (10 : ℚ) ^ n) : ℚ) / (10 : ℚ) ^ n

/-- Mean of a list of rationals; 0 on the empty list (the empty case is never
reached by the engine on the paths we verify). -/
def meanQ (xs : List ℚ) : ℚ := xs.sum / (xs.length : ℚ)

/-- Median of a list of rationals, pandas semantics: average of the two middle
elements of the sorted list; none for the empty list (pandas returns NaN). -/
def medianQ (xs : List ℚ) : Option ℚ :=
  let s := xs.insertionSort (· ≤ ·)
  let n := s.length
  if n = 0 then none
  else if n % 2 = 1 then s.get? (n / 2)
  else do
    let a ← s.get? (n / 2 - 1)
    let b ← s.get? (n / 2)
    pure ((a + b) / 2)

/-- Sample variance (pandas `Series.var()`, ddof=1) of the non-null values;
none when fewer than 2 values are present (pandas returns NaN). -/
def sampleVar (xs : List ℚ) : Option ℚ :=
  let n := xs.length
  if n < 2 then none
  else
    let m := meanQ xs
    some ((xs.map (fun x => (x - m) ^ 2)).sum / ((n : ℚ) - 1))

/-- Python ", ".join over a list of strings. -/
def joinComma : List String → String
  | [] => ""
  | [s] => s
  | s :: rest => s ++ ", " ++ joinComma rest

/-- Proposition that the character sequence of `needle` occurs contiguously
inside the character sequence of `hay`. -/
def SegIn (needle hay : List Char) : Prop :=
  ∃ s t, hay = s ++ needle ++ t

/-- Distinct strings in order of first appearance.  This is NOT what sklearn's
LabelEncoder does; it is the order the specification describes, kept here to
compare the two. -/
def firstObserved (xs : List String) : List String :=
  go xs []
where
  go : List String → List String → List String
    | [], acc => acc.reverse
    | x :: rest, acc => if x ∈ acc then go rest acc else go rest (x :: acc)

/-- Strict lexicographic comparison of character lists by code point, the
order numpy uses when sorting Python strings.  Defined directly on the
character lists because the library String order does not evaluate by kernel
reduction. -/
def strLtB : List Char → List Char → Bool
  | [], [] => false
  | [], _ :: _ => true
  | _ :: _, [] => false
  | a :: as, b :: bs =>
    if a.val.toNat < b.val.toNat then true
    else if b.val.toNat < a.val.toNat then false
    else strLtB as bs

/-- Non-strict lexicographic order on strings by code point. -/
def strLeB (a b : String) : Bool := a == b || strLtB a.data b.data

/-- Classes of sklearn's LabelEncoder fitted on a list of strings: the distinct
values in ascending lexicographic order (numpy unique sorts). -/
def labelClasses (xs : List String) : List String :=
  (xs.dedup).insertionSort (fun a b => strLeB a b = true)

/-- Codes produced by LabelEncoder.fit_transform: each value is replaced by its
index in the sorted class list. -/
def labelCodes (xs : List String) : List ℚ :=
  let classes := labelClasses xs
  xs.map (fun x => ((classes.indexOf x : Nat) : ℚ))

/-- Kinds of categorical encoding the engine produces. -/
inductive EncType where
  | boolean
  | datetime
  | numericCoerce
  | label
  | oneHot
deriving DecidableEq, Repr

/-- Metadata recorded for one encoded source column (an entry of
encoding_info). -/
structure EncInfo where
  original_column : String
  encoding_type : EncType
  new_columns : List String
  cardinality : Nat
  label_mapping : Option (List String) := none
deriving DecidableEq, Repr

/-- A purely numeric frame: named columns of rational cells. -/
abbrev NumDF := List (String × List ℚ)

/-- Result record of encode_categoricals. -/
structure EncodingResult where
  encoded_df : NumDF
  encoding_info : List EncInfo
  skipped_columns : List (String × String)
deriving DecidableEq, Repr

/-- Boolean-column encoding:
series.map({True: 1, False: 0, "True": 1, "False": 0}).fillna(0).  Values
missing from the dict (including NaN) become NaN and are then filled with 0. -/
def boolTo01 (c : Cell) : ℚ :=
  if c.pyEq (.pybool true) then 1
  else if c.pyEq (.pybool false) then 0
  else if c = .str "True" then 1
  else if c = .str "False" then 0
  else 0

/-- Label encoding of one column (the two identical label-encoding sites of
encode_categoricals): cast cells to str, fit a LabelEncoder, and record the
ordered class list as label_mapping. -/
def labelEncodeCol (ctx : PdCtx) (name : String) (nunique : Nat)
    (series : List Cell) : (String × List ℚ) × EncInfo :=
  let strs := series.map (Cell.pyStr ctx)
  ((name, labelCodes strs),
   { original_column := name, encoding_type := .label, new_columns := [name],
     cardinality := nunique, label_mapping := some (labelClasses strs) })

/-- One-hot encoding of one column:
pd.get_dummies(series.astype(str), prefix=col, drop_first=True).astype(int).
get_dummies emits one indicator column per distinct value in sorted order and
drop_first removes the first (smallest). -/
def oneHotCol (ctx : PdCtx) (name : String) (series : List Cell) : NumDF :=
  let strs := series.map (Cell.pyStr ctx)
  ((labelClasses strs).drop 1).map
    (fun cat => (name ++ "_" ++ cat, strs.map (fun s => if s = cat then (1 : ℚ) else 0)))

/-- Outcome of the first-pass handling of one categorical column. -/
inductive ColAction where
  | skip (reason : String)
  | part (cols : NumDF) (info : EncInfo)
  | oneHotCand (nunique : Nat) (series : List Cell)
deriving DecidableEq

/-- First-pass processing of a single selected categorical column, following
the per-column branch structure of encode_categoricals (lines 62-151 of
analysis_engine.py).  nRowsDf is len(df). -/
def processColumn (ctx : PdCtx) (nRowsDf cardinality_threshold : Nat)
    (name : String) (c : Col) : ColAction :=
  let cells := c.cells
  let nonNull := nonNullCells cells
  let nunique := (pyDedup nonNull).length
  if nunique ≤ 1 then .skip "Single value"
  else
    let cardRatio : ℚ := if nRowsDf > 0 then (nunique : ℚ) / (nRowsDf : ℚ) else 0
    if cardRatio > 9/10 then
      .skip ("ID-like (" ++ toString nunique ++ " unique values)")
    else if c.dtype = .boolean ∨
        (c.dtype = .object ∧
          nonNull.all (fun x => x.pyEq (.pybool true) || x.pyEq (.pybool false))) then
      .part [(name, cells.map boolTo01)]
        { original_column := name, encoding_type := .boolean,
          new_columns := [name], cardinality := 2 }
    else
      let isDt0 := c.dtype = .datetime
      let parseOk : Bool :=
        c.dtype = .object ∧ nonNull ≠ [] ∧
          ((nonNull.countP (fun x => (x.toDate ctx).isSome) : ℚ) / (nonNull.length : ℚ) > 1/2)
      if isDt0 ∨ parseOk then
        let dser : List (Option DateV) :=
          if isDt0 then cells.map (fun x => match x with | .date d => some d | _ => none)
          else cells.map (Cell.toDate ctx)
        let months := dser.map (fun o => match o with | some d => (d.month : ℚ) | none => 0)
        let dows := dser.map (fun o => match o with | some d => (d.dow : ℚ) | none => 0)
        let hours := dser.map (fun o => match o with | some d => (d.hour : ℚ) | none => 0)
        let parts :=
          [(name ++ "_month", months), (name ++ "_day_of_week", dows)] ++
            (if (0 : ℚ) < hours.sum then [(name ++ "_hour", hours)] else [])
        .part parts
          { original_column := name, encoding_type := .datetime,
            new_columns := parts.map (·.1), cardinality := nunique }
      else
        let coerceOk : Bool :=
          c.dtype = .object ∧
            ((if nonNull.length > 0 then
                ((nonNull.countP (fun x => (x.toNum ctx).isSome) : ℚ) / (nonNull.length : ℚ))
              else 0) > 4/5)
        if coerceOk then
          let encodedOpt := cells.map (Cell.toNum ctx)
          let med := (medianQ (encodedOpt.filterMap id)).getD 0
          .part [(name, encodedOpt.map (fun o => o.getD med))]
            { original_column := name, encoding_type := .numericCoerce,
              new_columns := [name], cardinality := nunique }
        else
          let filled := cells.map (fun x => if x.isMissing then Cell.str "MISSING" else x)
          if nunique ≤ cardinality_threshold then .oneHotCand nunique filled
          else
            .part [(labelEncodeCol ctx name nunique filled).1]
              (labelEncodeCol ctx name nunique filled).2

/-- First pass of encode_categoricals over the retained columns: accumulates
encoded single columns, metadata, skipped columns, and one-hot candidates in
order. -/
def encodePass1 (ctx : PdCtx) (nRowsDf cardinality_threshold : Nat) :
    List (String × Col) →
      NumDF × List EncInfo × List (String × String) × List (String × Nat × List Cell)
  | [] => ([], [], [], [])
  | (name, c) :: rest =>
    let r := encodePass1 ctx nRowsDf cardinality_threshold rest
    match processColumn ctx nRowsDf cardinality_threshold name c with
    | .skip reason => (r.1, r.2.1, (name, reason) :: r.2.2.1, r.2.2.2)
    | .part cols info => (cols ++ r.1, info :: r.2.1, r.2.2.1, r.2.2.2)
    | .oneHotCand nunique series => (r.1, r.2.1, r.2.2.1, (name, nunique, series) :: r.2.2.2)

/-- Second pass of encode_categoricals: one-hot candidates in descending
cardinality order; a candidate whose estimated nunique - 1 new columns would
push the running column total past max_total_features is downgraded to label
encoding, otherwise it is one-hot encoded. -/
def processCandidates (ctx : PdCtx) (max_total_features : Nat) :
    List (String × Nat × List Cell) → Nat → NumDF × List EncInfo
  | [], _ => ([], [])
  | (name, nunique, series) :: rest, current =>
    if current + (nunique - 1) > max_total_features then
      let pi := labelEncodeCol ctx name nunique series
      let r := processCandidates ctx max_total_features rest (current + 1)
      (pi.1 :: r.1, pi.2 :: r.2)
    else
      let dummies := oneHotCol ctx name series
      let r := processCandidates ctx max_total_features rest (current + dummies.length)
      (dummies ++ r.1,
       { original_column := name, encoding_type := .oneHot,
         new_columns := dummies.map (·.1), cardinality := nunique } :: r.2)

/-- Descending-cardinality stable sort of the one-hot candidates, mirroring
one_hot_candidates.sort(key=lambda x: x[1], reverse=True). -/
def sortCandidates (cands : List (String × Nat × List Cell)) :
    List (String × Nat × List Cell) :=
  cands.insertionSort (fun a b => b.2.1 ≤ a.2.1)

/-- Main branch of encode_categoricals, applied to the selection already
filtered to existing columns: restrict to columns with at most half the
values missing, run the first pass, then the one-hot/downgrade pass. -/
def encodeMain (ctx : PdCtx) (df : DF) (cat_cols : List String)
    (cardinality_threshold max_total_features : Nat) : EncodingResult :=
  let cat_df : List (String × Col) :=
    cat_cols.filterMap (fun c => (df.col? c).map (fun col => (c, col)))
  let n := DF.nRows df
  let valid := cat_df.filter (fun p => 2 * p.2.nnCount ≥ n)
  let r1 := encodePass1 ctx n cardinality_threshold valid
  let r2 := processCandidates ctx max_total_features
    (sortCandidates r1.2.2.2) r1.1.length
  ⟨r1.1 ++ r2.1, r1.2.1 ++ r2.2, r1.2.2.1⟩

/-- Embedding of encode_categoricals (analysis_engine.py lines 31-192). -/
def encode_categoricals (ctx : PdCtx) (df : DF) (categorical_columns : List String)
    (cardinality_threshold : Nat := 10) (max_total_features : Nat := 100) :
    EncodingResult :=
  if categorical_columns = [] then ⟨[], [], []⟩
  else
    let cat_cols := categorical_columns.filter (fun c => (DF.names df).contains c)
    if cat_cols = [] then ⟨[], [], []⟩
    else encodeMain ctx df cat_cols cardinality_threshold max_total_features

/-- Column classification record of dataset_loader: cardinality, suggested
encoding and ID-likeness. -/
structure Classification where
  cardinality : Option Nat
  suggested_encoding : Option EncType
  is_id_like : Bool
deriving DecidableEq, Repr

/-- Embedding of pandas pd.api.types.is_numeric_dtype, which counts bool
dtype as numeric (unlike select_dtypes with include number). -/
def isNumericDtype (d : Dtype) : Bool := d == .numeric || d == .boolean

/-- Embedding of the column classifier of dataset_loader.py (lines 252-297,
source name with a leading underscore). -/
def classify_column (ctx : PdCtx) (c : Col) : Classification :=
  let nonNull := nonNullCells c.cells
  let nRows := c.cells.length
  if isNumericDtype c.dtype then ⟨none, none, false⟩
  else if c.dtype = .datetime then ⟨none, none, false⟩
  else if c.dtype = .boolean ∨
      (c.dtype = .object ∧
        nonNull.all (fun x => x.pyEq (.pybool true) || x.pyEq (.pybool false))) then
    ⟨some 2, some .boolean, false⟩
  else
    let nunique := (pyDedup nonNull).length
    let cardRatio : ℚ := if nRows > 0 then (nunique : ℚ) / (nRows : ℚ) else 0
    if nunique ≤ 1 then ⟨some nunique, none, false⟩
    else if cardRatio > 9/10 then ⟨some nunique, none, true⟩
    else if c.dtype = .object ∧
        ((if nonNull.length > 0 then
            ((nonNull.countP (fun x => (x.toNum ctx).isSome) : ℚ) / (nonNull.length : ℚ))
          else 0) > 4/5) then
      ⟨some nunique, some .numericCoerce, false⟩
    else if nunique ≤ 10 then ⟨some nunique, some .oneHot, false⟩
    else ⟨some nunique, some .label, false⟩

/-- A numeric column that may still contain missing values. -/
abbrev OptCol := List (Option ℚ)

/-- A frame of numeric columns with possibly-missing cells. -/
abbrev OptDF := List (String × OptCol)

/-- Result record of the preprocessing pipeline. -/
structure PreprocessResult where
  numeric_df : OptDF
  scaled_df : OptDF
  feature_names : List String
  encoding_info : List EncInfo
  dropped_columns : List (String × String)

/-- Numeric-column selection of preprocess: an explicit empty allowlist gives
the empty frame; otherwise the allowlist (or all columns) filtered by
select_dtypes(include=["number"]), which keeps only numeric dtype (not bool). -/
def selectNumeric (df : DF) (columns : Option (List String)) : DF :=
  match columns with
  | some cols =>
    if cols = [] then []
    else (cols.filterMap (fun c => (df.col? c).map (fun col => (c, col)))).filter
        (fun p => p.2.dtype = .numeric)
  | none => df.filter (fun p => p.2.dtype = .numeric)

/-- Cells of a numeric column as optional rationals (NaN becomes none). -/
def colOpt (c : Col) : OptCol :=
  c.cells.map (fun x => match x with | .num q => some q | _ => none)

/-- Cell of an optional column at a row position (out of range counts as
missing). -/
def cellAt (col : OptCol) (i : Nat) : Option ℚ := (col.get? i).join

/-- Steps 1-6 of preprocess (analysis_engine.py lines 206-249): numeric
selection, missing-column drop, all-NaN row drop, median imputation,
categorical encoding, zero-variance drop.  Returns the combined frame, the
encoding metadata, the dropped-column audit, and the retained row positions. -/
def preprocessCombined (ctx : PdCtx) (df : DF) (columns : Option (List String))
    (categorical_columns : Option (List String)) :
    OptDF × List EncInfo × List (String × String) × List Nat :=
  let n := DF.nRows df
  let numeric0 : OptDF := (selectNumeric df columns).map (fun p => (p.1, colOpt p.2))
  let dropped1 := (numeric0.filter (fun p => 10 * p.2.countP (·.isSome) < n)).map
      (fun p => (p.1, "Over 90% missing values"))
  let numeric1 := numeric0.filter (fun p => n / 10 ≤ p.2.countP (·.isSome))
  let keepRows :=
    if numeric1 = [] then List.range n
    else (List.range n).filter (fun i => numeric1.any (fun p => (cellAt p.2 i).isSome))
  let numeric2 : OptDF := numeric1.map (fun p =>
      let vals := keepRows.map (fun i => cellAt p.2 i)
      let med := medianQ (vals.filterMap id)
      (p.1, vals.map (fun o => o <|> med)))
  let encRes : EncodingResult :=
    match categorical_columns with
    | some ccols =>
      if ccols = [] then ⟨[], [], []⟩
      else
        let sub : DF := df.map (fun p =>
          (p.1, ⟨p.2.dtype, keepRows.map (fun i => (p.2.cells.get? i).getD .missing)⟩))
        encode_categoricals ctx sub ccols
    | none => ⟨[], [], []⟩
  let combined : OptDF :=
    if encRes.encoded_df = [] ∨ keepRows = [] then numeric2
    else numeric2 ++ encRes.encoded_df.map (fun p => (p.1, p.2.map some))
  let zeroVarNames :=
    (combined.filter (fun p => sampleVar (p.2.filterMap id) = some 0)).map (·.1)
  let combined2 := combined.filter (fun p => !zeroVarNames.contains p.1)
  let dropped := dropped1 ++ encRes.skipped_columns ++
    zeroVarNames.map (fun c => (c, "Zero variance"))
  (combined2, encRes.encoding_info, dropped, keepRows)

/-- Validation-error message raised when fewer than 2 features remain
(analysis_engine.py lines 252-258). -/
def mkPreprocessError (found : Nat) (dropped : List (String × String)) : String :=
  let droppedDesc := joinComma (dropped.map (fun d => d.1 ++ " (" ++ d.2 ++ ")"))
  let hint := if dropped = [] then "" else " Dropped: " ++ droppedDesc ++ "."
  "Need at least 2 features for analysis, found " ++ toString found ++ "." ++ hint ++
    " Try selecting more columns or a different dataset."

/-- Selection labels absent from the frame.  pandas df[columns] raises
KeyError as soon as any requested label is missing from the column index. -/
def missingSel (df : DF) (cols : List String) : List String :=
  cols.filter (fun c => (df.col? c).isNone)

/-- Errors preprocess can surface: the KeyError propagated uncaught out of
df[columns] when a nonempty selection names absent columns, and the
ValueError of the feature-floor validation. -/
inductive PreErr where
  | keyErr (missing : List String)
  | valueErr (msg : String)

/-- KeyError check of df[columns] (analysis_engine.py line 210): a nonempty
selection with at least one absent label raises, carrying the missing
labels; columns = None and columns = [] never reach df[columns]. -/
def selErr (df : DF) (columns : Option (List String)) : Option (List String) :=
  match columns with
  | none => none
  | some cols =>
    if cols = [] then none
    else if missingSel df cols = [] then none
    else some (missingSel df cols)

/-- Validation and construction steps of preprocess once the selection has
passed the df[columns] lookup (analysis_engine.py lines 211-271).  The
StandardScaler is an external sklearn component; it is passed in as the
column-wise function scaler and affects only the scaled_df field. -/
def preprocessChecked (ctx : PdCtx) (scaler : OptCol → OptCol) (df : DF)
    (columns : Option (List String)) (categorical_columns : Option (List String)) :
    Except PreErr PreprocessResult :=
  let pc := preprocessCombined ctx df columns categorical_columns
  let feature_names := (pc.1).map (·.1)
  if feature_names.length < 2 then
    .error (.valueErr (mkPreprocessError feature_names.length pc.2.2.1))
  else
    .ok { numeric_df := pc.1,
          scaled_df := (pc.1).map (fun p => (p.1, scaler p.2)),
          feature_names := feature_names,
          encoding_info := pc.2.1,
          dropped_columns := pc.2.2.1 }

/-- Embedding of preprocess (analysis_engine.py lines 195-271): df[columns]
raises KeyError when the nonempty selection names an absent column, before
any drop or encoding step runs; otherwise the pipeline proceeds to the
feature-floor validation and result construction. -/
def preprocess (ctx : PdCtx) (scaler : OptCol → OptCol) (df : DF)
    (columns : Option (List String)) (categorical_columns : Option (List String)) :
    Except PreErr PreprocessResult :=
  match selErr df columns with
  | some miss => .error (.keyErr miss)
  | none => preprocessChecked ctx scaler df columns categorical_columns

/-- Sweep loop of find_optimal_k.  km k models
KMeans(n_clusters=k, n_init=10, random_state=42).fit_predict on the scaled
values (none when the sklearn call raises and the try/except continues);
score k labels models silhouette_score (none when it raises).  The
accumulator is (best_k, best_score). -/
def sweepK (km : Nat → Option (List ℤ)) (score : Nat → List ℤ → Option ℚ) :
    List Nat → Nat × ℚ → Nat × ℚ
  | [], best => best
  | k :: ks, best =>
    match km k with
    | none => sweepK km score ks best
    | some labels =>
      if (labels.dedup).length < 2 then sweepK km score ks best
      else
        match score k labels with
        | none => sweepK km score ks best
        | some s =>
          if best.2 < s then sweepK km score ks (k, s) else sweepK km score ks best

/-- Candidate score of a single k in the sweep: some sc exactly when the fit
succeeds, the labels have at least 2 distinct values, and the scoring
succeeds; none on any of the three skip paths of the loop body. -/
def candScore (km : Nat → Option (List ℤ)) (score : Nat → List ℤ → Option ℚ)
    (k : Nat) : Option ℚ :=
  match km k with
  | none => none
  | some labels =>
    if (labels.dedup).length < 2 then none else score k labels

/-- Embedding of find_optimal_k (analysis_engine.py lines 292-317): the k
range is 2 .. max(3, min(10, floor(sqrt(n)))) inclusive, best_k starts at 2
and best_score at -1.0, and a candidate replaces the best only on a strictly
higher score. -/
def find_optimal_k (n : Nat) (km : Nat → Option (List ℤ))
    (score : Nat → List ℤ → Option ℚ) : Nat :=
  let maxK := max (min 10 (Nat.sqrt n)) 3
  (sweepK km score (List.range' 2 (maxK - 1)) (2, -1)).1

/-- Abstract sklearn clustering components over a fixed scaled matrix:
label vectors of the three algorithms, the adaptive eps, the silhouette value
on the non-noise rows, the row count, and the exception-aware kmeans used by
the auto-k sweep. -/
structure SkClusterCtx where
  kmeansLabels : Nat → List ℤ
  dbscanLabels : ℚ → Nat → List ℤ
  hierLabels : Nat → List ℤ
  autoEps : Nat → ℚ
  silhouette : List ℤ → ℚ
  kmFit : Nat → Option (List ℤ)
  kmScore : Nat → List ℤ → Option ℚ
  nRowsVals : Nat

/-- Parameter record reported by cluster. -/
inductive ClusterParams where
  | kmeansP (n_clusters n_init : Nat)
  | dbscanP (eps : ℚ) (min_samples : Nat)
  | hierP (n_clusters : Nat) (linkage : String)
deriving DecidableEq, Repr

/-- Embedding of cluster (analysis_engine.py lines 335-384): algorithm
dispatch, then the silhouette guard over non-noise labels. -/
def cluster (sk : SkClusterCtx) (algorithm : String) (n_clusters : Option Nat) :
    Except String (List ℤ × Nat × Option ℚ × ClusterParams) :=
  let step : Option (List ℤ × Nat × ClusterParams) :=
    if algorithm = "kmeans" then
      let k := match n_clusters with
        | some k => k
        | none => find_optimal_k sk.nRowsVals sk.kmFit sk.kmScore
      some (sk.kmeansLabels k, k, .kmeansP k 10)
    else if algorithm = "dbscan" then
      let min_samples := max 5 (sk.nRowsVals / 100)
      let eps := sk.autoEps min_samples
      let labels := sk.dbscanLabels eps min_samples
      let nc := (labels.dedup).length - (if (-1 : ℤ) ∈ labels then 1 else 0)
      some (labels, nc, .dbscanP (pyRoundTo 4 eps) min_samples)
    else if algorithm = "hierarchical" then
      let k := match n_clusters with
        | some k => k
        | none => find_optimal_k sk.nRowsVals sk.kmFit sk.kmScore
      some (sk.hierLabels k, k, .hierP k "ward")
    else none
  match step with
  | none => .error ("Unknown algorithm: " ++ algorithm)
  | some (labels, nc, params) =>
    let uniq := (labels.dedup).filter (fun l => l ≠ -1)
    let silScore : Option ℚ :=
      if 2 ≤ uniq.length ∧ uniq.length < labels.countP (fun l => l ≠ -1) then
        some (sk.silhouette (labels.filter (fun l => l ≠ -1)))
      else none
    .ok (labels, nc, silScore, params)

/-- Centroid value: a number for ordinary features, a category string for
label-encoded features. -/
inductive CVal where
  | num (q : ℚ)
  | str (s : String)
deriving DecidableEq, Repr

/-- One entry of top_features. -/
structure TopFeature where
  feature : String
  cluster_mean : ℚ
  overall_mean : ℚ
  z_deviation : ℚ
deriving DecidableEq, Repr

/-- One cluster profile. -/
structure ClusterProfile where
  cluster_id : ℤ
  size : Nat
  percentage : ℚ
  centroid : List (String × CVal)
  top_features : List TopFeature
deriving DecidableEq, Repr

/-- Values of a named column of a numeric frame (empty when absent). -/
def colVals (ndf : NumDF) (colname : String) : List ℚ :=
  (((ndf.find? (fun p => p.1 == colname)).map (·.2)).getD [])

/-- Values of a column restricted to the rows carrying a given cluster label
(the mask labels == cluster_id). -/
def selRows (vals : List ℚ) (labels : List ℤ) (cid : ℤ) : List ℚ :=
  ((vals.zip labels).filter (fun p => p.2 = cid)).map (·.1)

/-- Clamped index used for label-encoded centroids:
max(0, min(round(raw_mean), len(mapping) - 1)). -/
def clampIdx (mapping : List String) (raw : ℚ) : ℤ :=
  max 0 (min (pyRoundZ raw) ((mapping.length : ℤ) - 1))

/-- Reverse-mapped centroid value of a label-encoded feature:
mapping[max(0, min(round(raw_mean), len(mapping) - 1))]. -/
def mapCentroid (mapping : List String) (raw : ℚ) : String :=
  mapping.getD (clampIdx mapping raw).toNat ""

/-- Lookup in the label_maps dict; later encoding_info entries overwrite
earlier ones as in a Python dict build loop. -/
def lookupMap (maps : List (String × List String)) (col : String) :
    Option (List String) :=
  ((maps.reverse).find? (fun p => p.1 == col)).map (·.2)

/-- Lookup table from label-encoded column name to its label_mapping, built
from encoding_info (profile_clusters lines 396-399). -/
def labelMapsOf (encoding_info : List EncInfo) : List (String × List String) :=
  encoding_info.filterMap (fun e =>
    if e.encoding_type = .label then
      e.label_mapping.map (fun m => (e.original_column, m))
    else none)

/-- Embedding of profile_clusters (analysis_engine.py lines 387-445). -/
def profile_clusters (numeric_df scaled_df : NumDF) (labels : List ℤ)
    (feature_names : List String) (encoding_info : List EncInfo) :
    List ClusterProfile :=
  let label_maps := labelMapsOf encoding_info
  let uniq := (labels.dedup).insertionSort (· ≤ ·)
  let total := labels.length
  uniq.map (fun cid =>
    let size := labels.count cid
    let percentage := pyRoundTo 1 ((size : ℚ) / (total : ℚ) * 100)
    let centroid := feature_names.map (fun col =>
      let raw := pyRoundTo 4 (meanQ (selRows (colVals numeric_df col) labels cid))
      match lookupMap label_maps col with
      | some mapping => (col, CVal.str (mapCentroid mapping raw))
      | none => (col, CVal.num raw))
    let devs : List (String × ℚ) := scaled_df.map (fun p =>
      (p.1, |meanQ (selRows p.2 labels cid) - meanQ p.2|))
    let sortedDevs := devs.insertionSort (fun a b => b.2 ≤ a.2)
    let top := (sortedDevs.take 5).map (fun p =>
      { feature := p.1,
        cluster_mean := pyRoundTo 4 (meanQ (selRows (colVals numeric_df p.1) labels cid)),
        overall_mean := pyRoundTo 4 (meanQ (colVals numeric_df p.1)),
        z_deviation := pyRoundTo 4 p.2 })
    { cluster_id := cid, size := size, percentage := percentage,
      centroid := centroid, top_features := top })

/-- Trivial external-primitive context: no string parses as a number or a
date.  Used by concrete counterexamples and witnesses. -/
def ctx0 : PdCtx := ⟨fun _ => none, fun _ => none, fun _ => none, fun _ => "", fun _ => ""⟩

/-- Trivial clustering context used by the witness below. -/
def skTriv : SkClusterCtx :=
  ⟨fun _ => [], fun _ _ => [], fun _ => [], fun _ => 0, fun _ => 0,
   fun _ => none, fun _ _ => none, 0⟩

/-- One categorical column with 60 distinct values, each value appearing
three times (so the cardinality ratio is 1/3 and the column is not ID-like).
Used by the feature-cap scenario. -/
def capCol (pre : String) : List Cell :=
  (List.range 60).map (fun i => Cell.str (pre ++ toString i)) ++
    (List.range 60).map (fun i => Cell.str (pre ++ toString i)) ++
    (List.range 60).map (fun i => Cell.str (pre ++ toString i))

/-- Two-column frame with 60 distinct values per column, the feature-cap
scenario of the claim (mirrors test_dimension_cap). -/
def dfCap : DF :=
  [("cat_a", ⟨.object, capCol "a_"⟩), ("cat_b", ⟨.object, capCol "b_"⟩)]

/-- Abstract kmeans used by the C3 counterexample: k=2 collapses to a single
cluster, k=3 yields two distinct clusters (fewer than 3). -/
def cexKm : Nat → Option (List ℤ) := fun k =>
  if k = 2 then some [0, 0, 0, 0, 0, 0, 0, 0, 0]
  else if k = 3 then some [0, 1, 0, 1, 0, 1, 0, 1, 0]
  else none

/-- Abstract silhouette used by the C3 counterexample. -/
def cexScore : Nat → List ℤ → Option ℚ := fun _ _ => some (1/2)

theorem qFloor_eq_floor (q : ℚ) : qFloor q = ⌊q⌋ := (Rat.floor_def).symm

theorem segIn_refl (l : List Char) : SegIn l l := ⟨[], [], by simp⟩

theorem segIn_append_left (n h : List Char) (pre : List Char) :
    SegIn n h → SegIn n (pre ++ h) := by
  rintro ⟨s, t, rfl⟩
  exact ⟨pre ++ s, t, by simp⟩

theorem segIn_append_right (n h : List Char) (post : List Char) :
    SegIn n h → SegIn n (h ++ post) := by
  rintro ⟨s, t, rfl⟩
  exact ⟨s, t ++ post, by simp⟩

theorem segIn_join_of_mem {s : String} {parts : List String} (hmem : s ∈ parts) :
    SegIn s.data (joinComma parts).data := by
  induction parts with
  | nil => cases hmem
  | cons p rest ih =>
    rcases List.mem_cons.mp hmem with h | h
    · subst h
      cases rest with
      | nil => exact segIn_refl _
      | cons q qs =>
        show SegIn s.data (s ++ ", " ++ joinComma (q :: qs)).data
        rw [String.data_append, String.data_append]
        exact ⟨[], ", ".data ++ (joinComma (q :: qs)).data, by simp⟩
    · cases rest with
      | nil => cases h
      | cons q qs =>
        show SegIn s.data (p ++ ", " ++ joinComma (q :: qs)).data
        rw [String.data_append]
        exact segIn_append_left _ _ _ (ih h)

theorem profile_cluster_ids (numeric scaled : NumDF) (labels : List ℤ)
    (features : List String) (encinfo : List EncInfo) :
    (profile_clusters numeric scaled labels features encinfo).map (·.cluster_id)
      = (labels.dedup).insertionSort (· ≤ ·) := by
  simp only [profile_clusters, List.map_map]
  exact List.map_id _

theorem profile_fields (numeric scaled : NumDF) (labels : List ℤ)
    (features : List String) (encinfo : List EncInfo) :
    ∀ p ∈ profile_clusters numeric scaled labels features encinfo,
      p.size = labels.count p.cluster_id ∧
      p.percentage =
        pyRoundTo 1 ((labels.count p.cluster_id : ℚ) / (labels.length : ℚ) * 100) := by
  intro p hp
  simp only [profile_clusters, List.mem_map] at hp
  obtain ⟨cid, _, rfl⟩ := hp
  exact ⟨rfl, rfl⟩

theorem mem_profile_ids_iff (numeric scaled : NumDF) (labels : List ℤ)
    (features : List String) (encinfo : List EncInfo) (l : ℤ) :
    l ∈ (profile_clusters numeric scaled labels features encinfo).map (·.cluster_id)
      ↔ l ∈ labels := by
  rw [profile_cluster_ids]
  rw [(List.perm_insertionSort (· ≤ ·) (labels.dedup)).mem_iff]
  exact List.mem_dedup

theorem sorted_head_min {l : List ℤ} (hs : l.Sorted (· ≤ ·)) (hm : (-1 : ℤ) ∈ l)
    (hall : ∀ x ∈ l, (-1 : ℤ) ≤ x) : l.head? = some (-1) := by
  cases l with
  | nil => cases hm
  | cons a rest =>
    have h1 : (-1 : ℤ) ≤ a := hall a (List.mem_cons_self a rest)
    rcases List.mem_cons.mp hm with h | h
    · simp [h.symm]
    · have h2 : a ≤ -1 := (List.rel_of_sorted_cons hs) _ h
      simp [le_antisymm h2 h1]

theorem pyRoundZ_nonneg {q : ℚ} (h : 0 ≤ q) : 0 ≤ pyRoundZ q := by
  have hf : (0 : ℤ) ≤ ⌊q⌋ := Int.floor_nonneg.mpr h
  simp only [pyRoundZ, qFloor_eq_floor]
  split_ifs <;> omega

theorem pyRoundZ_le {q : ℚ} {B : ℤ} (h : q ≤ (B : ℚ)) : pyRoundZ q ≤ B := by
  have hf : ⌊q⌋ ≤ B := by
    calc ⌊q⌋ ≤ ⌊(B : ℚ)⌋ := Int.floor_le_floor h
    _ = B := Int.floor_intCast B
  have hfl : (⌊q⌋ : ℚ) ≤ q := Int.floor_le q
  simp only [pyRoundZ, qFloor_eq_floor]
  split_ifs with h1 h2 h3
  · exact hf
  · have : (⌊q⌋ : ℚ) + 1/2 < q := by linarith
    have hlt : (⌊q⌋ : ℚ) < (B : ℚ) := by linarith
    have : ⌊q⌋ < B := by exact_mod_cast hlt
    omega
  · exact hf
  · have hte : q - (⌊q⌋ : ℚ) = 1/2 := le_antisymm (not_lt.mp h2) (not_lt.mp h1)
    have hlt : (⌊q⌋ : ℚ) < (B : ℚ) := by linarith
    have : ⌊q⌋ < B := by exact_mod_cast hlt
    omega

theorem pyRoundTo1_bounds {q : ℚ} (h0 : 0 ≤ q) (h1 : q ≤ 100) :
    0 ≤ pyRoundTo 1 q ∧ pyRoundTo 1 q ≤ 100 := by
  have hz0 : 0 ≤ pyRoundZ (q * 10) := pyRoundZ_nonneg (by linarith)
  have hz1 : pyRoundZ (q * 10) ≤ (1000 : ℤ) := pyRoundZ_le (by push_cast; linarith)
  unfold pyRoundTo
  constructor
  · have : (0 : ℚ) ≤ (pyRoundZ (q * 10) : ℚ) := by exact_mod_cast hz0
    rw [pow_one]
    positivity
  · have hc : (pyRoundZ (q * 10) : ℚ) ≤ 1000 := by exact_mod_cast hz1
    rw [pow_one]
    linarith

/-- C10: the list returned by profile_clusters is ordered by strictly
ascending cluster_id; when every label is at least -1 (as under density
clustering, where -1 is the noise label), the noise cluster, when present, is
always the first profile. -/
theorem profile_clusters_ascending (numeric scaled : NumDF) (labels : List ℤ)
    (features : List String) (encinfo : List EncInfo)
    (hmin : ∀ l ∈ labels, (-1 : ℤ) ≤ l) :
    ((profile_clusters numeric scaled labels features encinfo).map
        (·.cluster_id)).Sorted (· < ·) ∧
    ((-1 : ℤ) ∈ labels →
      ((profile_clusters numeric scaled labels features encinfo).map
          (·.cluster_id)).head? = some (-1)) := by
  rw [profile_cluster_ids]
  have hperm := List.perm_insertionSort (· ≤ ·) labels.dedup
  have hs : ((labels.dedup).insertionSort (· ≤ ·)).Sorted (· ≤ ·) :=
    List.sorted_insertionSort _ _
  have hnd : ((labels.dedup).insertionSort (· ≤ ·)).Nodup :=
    hperm.nodup_iff.mpr labels.nodup_dedup
  refine ⟨hs.lt_of_le hnd, fun hm => sorted_head_min hs ?_ ?_⟩
  · exact hperm.mem_iff.mpr (List.mem_dedup.mpr hm)
  · intro x hx
    exact hmin x (List.mem_dedup.mp (hperm.mem_iff.mp hx))

/-- Witness for profile_clusters_ascending at a concrete density-style label
vector containing noise. -/
theorem profile_clusters_ascending_witness :
    ((profile_clusters [] [] ([-1, 0] : List ℤ) [] []).map
        (·.cluster_id)).head? = some (-1) :=
  (profile_clusters_ascending [] [] ([-1, 0] : List ℤ) [] [] (by decide)).2 (by decide)

/-- C2 (amended): profile_clusters yields exactly one profile per distinct
label value; the sizes sum to the total row count; each size is positive and
each percentage equals size/total*100 rounded to 1 decimal, hence lies in
[0, 100] (it can round to 0.0 for clusters below 0.05 percent of the rows,
so the interval is closed at 0, not open). -/
theorem profile_clusters_partition (numeric scaled : NumDF) (labels : List ℤ)
    (features : List String) (encinfo : List EncInfo) :
    ((profile_clusters numeric scaled labels features encinfo).map
        (·.cluster_id)).Nodup ∧
    (∀ l : ℤ, l ∈ (profile_clusters numeric scaled labels features encinfo).map
        (·.cluster_id) ↔ l ∈ labels) ∧
    ((profile_clusters numeric scaled labels features encinfo).map
        (·.size)).sum = labels.length ∧
    (∀ p ∈ profile_clusters numeric scaled labels features encinfo,
      0 < p.size ∧
      p.percentage = pyRoundTo 1 ((p.size : ℚ) / (labels.length : ℚ) * 100) ∧
      0 ≤ p.percentage ∧ p.percentage ≤ 100) := by
  have hperm := List.perm_insertionSort (· ≤ ·) labels.dedup
  refine ⟨?_, fun l => mem_profile_ids_iff numeric scaled labels features encinfo l,
    ?_, ?_⟩
  · rw [profile_cluster_ids]
    exact hperm.nodup_iff.mpr labels.nodup_dedup
  · have hsz : (profile_clusters numeric scaled labels features encinfo).map (·.size)
        = ((labels.dedup).insertionSort (· ≤ ·)).map (fun cid => labels.count cid) := by
      simp only [profile_clusters, List.map_map]
      rfl
    rw [hsz, (hperm.map (fun cid => labels.count cid)).sum_eq]
    rw [← List.sum_toFinset _ labels.nodup_dedup]
    rw [show labels.dedup.toFinset = labels.toFinset by ext x; simp]
    exact List.sum_toFinset_count_eq_length labels
  · intro p hp
    obtain ⟨hsize, hperc⟩ := profile_fields numeric scaled labels features encinfo p hp
    have hmem : p.cluster_id ∈ labels :=
      (mem_profile_ids_iff numeric scaled labels features encinfo p.cluster_id).mp
        (List.mem_map_of_mem _ hp)
    have hpos : 0 < labels.count p.cluster_id := List.count_pos_iff.mpr hmem
    have hlen : 0 < labels.length := List.length_pos.mpr (List.ne_nil_of_mem hmem)
    have hlenQ : (0 : ℚ) < (labels.length : ℚ) := by exact_mod_cast hlen
    have h0 : 0 ≤ (labels.count p.cluster_id : ℚ) / (labels.length : ℚ) * 100 := by
      positivity
    have h1 : (labels.count p.cluster_id : ℚ) / (labels.length : ℚ) * 100 ≤ 100 := by
      have hcl : (labels.count p.cluster_id : ℚ) ≤ (labels.length : ℚ) := by
        exact_mod_cast List.count_le_length p.cluster_id labels
      have hq : (labels.count p.cluster_id : ℚ) / (labels.length : ℚ) ≤ 1 :=
        (div_le_one hlenQ).mpr hcl
      nlinarith
    have hb := pyRoundTo1_bounds h0 h1
    refine ⟨by rw [hsize]; exact hpos, by rw [hperc, hsize], ?_, ?_⟩
    · rw [hperc]; exact hb.1
    · rw [hperc]; exact hb.2

/-- Witness for profile_clusters_partition at a concrete label vector. -/
theorem profile_clusters_partition_witness :
    ((profile_clusters [] [] ([0, 0, 1] : List ℤ) [] []).map (·.size)).sum = 3 ∧
    (0 : Nat) <
      (⟨0, 2, 667/10, [], []⟩ : ClusterProfile).size ∧
    (⟨0, 2, 667/10, [], []⟩ : ClusterProfile).percentage ≤ 100 := by
  have h := profile_clusters_partition [] [] ([0, 0, 1] : List ℤ) [] []
  have hP : profile_clusters [] [] ([0, 0, 1] : List ℤ) [] []
      = [⟨0, 2, 667/10, [], []⟩, ⟨1, 1, 333/10, [], []⟩] := by decide
  have hp := h.2.2.2 (⟨0, 2, 667/10, [], []⟩ : ClusterProfile)
    (by rw [hP]; exact List.mem_cons_self _ _)
  exact ⟨h.2.2.1.trans (by decide), hp.1, hp.2.2.2⟩

/-- C2 counterexample: with 2001 rows split 2000/1, the singleton cluster has
percentage round(1/2001*100, 1) = 0.0, which is not in the open-below
interval (0, 100] the claim asserts. -/
theorem profile_percentage_zero_cex :
    ¬ ∀ p ∈ profile_clusters [] [] (List.replicate 2000 (0 : ℤ) ++ [1]) [] [],
        0 < p.percentage ∧ p.percentage ≤ 100 := by
  intro hall
  have hmem1 : (1 : ℤ) ∈ List.replicate 2000 (0 : ℤ) ++ [1] :=
    List.mem_append_right _ (by simp)
  have hm : (1 : ℤ) ∈ (profile_clusters [] []
      (List.replicate 2000 (0 : ℤ) ++ [1]) [] []).map (·.cluster_id) :=
    (mem_profile_ids_iff [] [] _ [] [] 1).mpr hmem1
  obtain ⟨p, hp, hpid⟩ := List.mem_map.mp hm
  have hf := profile_fields [] [] _ [] [] p hp
  have hcount : (List.replicate 2000 (0 : ℤ) ++ [1]).count 1 = 1 := by
    rw [List.count_append, List.count_replicate]
    norm_num
  have hlen : (List.replicate 2000 (0 : ℤ) ++ [1]).length = 2001 := by
    rw [List.length_append, List.length_replicate]
    rfl
  have hperc : p.percentage = pyRoundTo 1 (((1 : ℕ) : ℚ) / ((2001 : ℕ) : ℚ) * 100) := by
    rw [hf.2, hpid, hcount, hlen]
  have hzero : pyRoundTo 1 (((1 : ℕ) : ℚ) / ((2001 : ℕ) : ℚ) * 100) = 0 := by
    decide
  have hppos := (hall p hp).1
  rw [hperc, hzero] at hppos
  exact lt_irrefl 0 hppos

theorem clampIdx_bounds (mapping : List String) (hne : mapping ≠ []) (q : ℚ) :
    0 ≤ clampIdx mapping q ∧ (clampIdx mapping q).toNat < mapping.length := by
  have hlen : 0 < mapping.length := List.length_pos.mpr hne
  have h0 : 0 ≤ clampIdx mapping q := le_max_left 0 _
  have h1 : clampIdx mapping q ≤ (mapping.length : ℤ) - 1 := by
    have : min (pyRoundZ q) ((mapping.length : ℤ) - 1) ≤ (mapping.length : ℤ) - 1 :=
      min_le_right _ _
    have hml : (0 : ℤ) ≤ (mapping.length : ℤ) - 1 := by
      have : (1 : ℤ) ≤ (mapping.length : ℤ) := by exact_mod_cast hlen
      omega
    exact max_le hml this
  exact ⟨h0, by omega⟩

/-- C6: for every label-encoded feature with a nonempty label_mapping,
profile_clusters rounds the 4-decimal original-space cluster mean to the
nearest integer, clamps it into [0, len(mapping) - 1], and substitutes the
category string at that index; the clamped index is always in range, so the
lookup never raises an index error, and with mapping ["A","B","C"] a cluster
mean of 10.0 produces centroid value "C". -/
theorem profile_centroid_clamped (numeric scaled : NumDF) (labels : List ℤ)
    (features : List String) (encinfo : List EncInfo) (col : String)
    (mapping : List String)
    (hmap : lookupMap (labelMapsOf encinfo) col = some mapping)
    (hne : mapping ≠ []) :
    (∀ p ∈ profile_clusters numeric scaled labels features encinfo,
      ∀ v, (col, v) ∈ p.centroid →
        ∃ i : Fin mapping.length,
          v = CVal.str (mapping.get i) ∧
          (i : ℕ) = (clampIdx mapping (pyRoundTo 4 (meanQ
            (selRows (colVals numeric col) labels p.cluster_id)))).toNat) ∧
    (∀ q : ℚ, 0 ≤ clampIdx mapping q ∧ (clampIdx mapping q).toNat < mapping.length) ∧
    mapCentroid ["A", "B", "C"] 10 = "C" := by
  refine ⟨?_, fun q => clampIdx_bounds mapping hne q, by decide⟩
  intro p hp v hv
  simp only [profile_clusters, List.mem_map] at hp
  obtain ⟨cid, _, rfl⟩ := hp
  simp only [List.mem_map] at hv
  obtain ⟨c, _, hc⟩ := hv
  rcases hmc : lookupMap (labelMapsOf encinfo) c with _ | m
  · rw [hmc] at hc
    have h1 : c = col := congrArg Prod.fst hc
    subst h1
    rw [hmap] at hmc
    cases hmc
  · rw [hmc] at hc
    have h1 : c = col := congrArg Prod.fst hc
    subst h1
    rw [hmap] at hmc
    obtain rfl : mapping = m := Option.some.inj hmc
    have h2 : v = CVal.str (mapCentroid mapping
        (pyRoundTo 4 (meanQ (selRows (colVals numeric c) labels cid)))) :=
      (congrArg Prod.snd hc).symm
    have hb := clampIdx_bounds mapping hne
      (pyRoundTo 4 (meanQ (selRows (colVals numeric c) labels cid)))
    refine ⟨⟨(clampIdx mapping (pyRoundTo 4 (meanQ
      (selRows (colVals numeric c) labels cid)))).toNat, hb.2⟩, ?_, rfl⟩
    rw [h2]
    simp only [mapCentroid, List.getD_eq_getElem?_getD]
    rw [List.getElem?_eq_getElem hb.2]
    rfl

/-- Witness for profile_centroid_clamped: a label-encoded column whose
cluster mean 10.0 is clamped to the last category "C" of a 3-element
mapping. -/
theorem profile_centroid_clamped_witness :
    ∃ i : Fin (["A", "B", "C"] : List String).length,
      CVal.str "C" = CVal.str ((["A", "B", "C"] : List String).get i) := by
  have h := (profile_centroid_clamped [("f", [10, 10])] [("f", [1, 1])]
      ([0, 0] : List ℤ) ["f"]
      [⟨"f", .label, ["f"], 3, some ["A", "B", "C"]⟩] "f" ["A", "B", "C"]
      (by decide) (by decide)).1
  have hP : profile_clusters [("f", [10, 10])] [("f", [1, 1])] ([0, 0] : List ℤ)
      ["f"] [⟨"f", .label, ["f"], 3, some ["A", "B", "C"]⟩]
      = [⟨0, 2, 100, [("f", CVal.str "C")], [⟨"f", 10, 10, 0⟩]⟩] := by decide
  obtain ⟨i, hi, _⟩ := h ⟨0, 2, 100, [("f", CVal.str "C")], [⟨"f", 10, 10, 0⟩]⟩
    (by rw [hP]; exact List.mem_cons_self _ _) (CVal.str "C")
    (List.mem_cons_self _ _)
  exact ⟨i, hi⟩

theorem silOpt_isSome_iff (f : List ℤ → ℚ) (labels : List ℤ) :
    (if 2 ≤ ((labels.dedup).filter (fun l => l ≠ -1)).length ∧
          ((labels.dedup).filter (fun l => l ≠ -1)).length <
            labels.countP (fun l => l ≠ -1)
      then some (f (labels.filter (fun l => l ≠ -1)))
      else none).isSome = true ↔
      2 ≤ ((labels.dedup).filter (fun l => l ≠ -1)).length ∧
        ((labels.dedup).filter (fun l => l ≠ -1)).length <
          labels.countP (fun l => l ≠ -1) := by
  split_ifs with h
  · simp only [Option.isSome_some, true_iff]
    simpa [ne_eq, decide_not] using h
  · simp only [Option.isSome_none, false_iff]
    simpa [ne_eq, decide_not] using h

/-- C7: for each of the three known algorithm names, cluster returns a valid
result (no error), and the silhouette score is present if and only if at
least 2 non-noise cluster labels exist and the count of non-noise points
exceeds the non-noise cluster count; in every other case the score is
absent. -/
theorem cluster_silhouette_iff (sk : SkClusterCtx) (nc : Option Nat)
    (alg : String)
    (halg : alg = "kmeans" ∨ alg = "dbscan" ∨ alg = "hierarchical") :
    ∃ labels n sil params,
      cluster sk alg nc = Except.ok (labels, n, sil, params) ∧
        (sil.isSome = true ↔
          2 ≤ ((labels.dedup).filter (fun l => l ≠ -1)).length ∧
            ((labels.dedup).filter (fun l => l ≠ -1)).length <
              labels.countP (fun l => l ≠ -1)) := by
  rcases halg with h | h | h <;> subst h
  · exact ⟨_, _, _, _, rfl, silOpt_isSome_iff sk.silhouette _⟩
  · exact ⟨_, _, _, _, rfl, silOpt_isSome_iff sk.silhouette _⟩
  · exact ⟨_, _, _, _, rfl, silOpt_isSome_iff sk.silhouette _⟩

/-- Witness for cluster_silhouette_iff with the dbscan algorithm name. -/
theorem cluster_silhouette_iff_witness :
    ∃ labels n sil params,
      cluster skTriv "dbscan" none = Except.ok (labels, n, sil, params) ∧
        (sil.isSome = true ↔
          2 ≤ ((labels.dedup).filter (fun l => l ≠ -1)).length ∧
            ((labels.dedup).filter (fun l => l ≠ -1)).length <
              labels.countP (fun l => l ≠ -1)) :=
  cluster_silhouette_iff skTriv none "dbscan" (Or.inr (Or.inl rfl))

theorem charEq_of_toNat {a b : Char} (h : a.val.toNat = b.val.toNat) : a = b :=
  Char.ext (UInt32.toNat.inj h)

theorem strLtB_cons_of_lt {a b : Char} {as bs : List Char}
    (h : a.val.toNat < b.val.toNat) : strLtB (a :: as) (b :: bs) = true := by
  simp [strLtB, h]

theorem strLtB_cons_of_eq {a b : Char} {as bs : List Char}
    (h : a.val.toNat = b.val.toNat) (h2 : strLtB as bs = true) :
    strLtB (a :: as) (b :: bs) = true := by
  simp [strLtB, h, h2]

theorem strLtB_true_cases {a b : Char} {as bs : List Char}
    (h : strLtB (a :: as) (b :: bs) = true) :
    a.val.toNat < b.val.toNat ∨
      (a.val.toNat = b.val.toNat ∧ strLtB as bs = true) := by
  by_cases h1 : a.val.toNat < b.val.toNat
  · exact Or.inl h1
  · by_cases h2 : b.val.toNat < a.val.toNat
    · simp [strLtB, h1, h2] at h
    · refine Or.inr ⟨by omega, ?_⟩
      simpa [strLtB, h1, h2] using h

theorem strLtB_trichot : ∀ x y : List Char,
    strLtB x y = true ∨ strLtB y x = true ∨ x = y
  | [], [] => Or.inr (Or.inr rfl)
  | [], _ :: _ => Or.inl rfl
  | _ :: _, [] => Or.inr (Or.inl rfl)
  | a :: as, b :: bs => by
    rcases Nat.lt_trichotomy a.val.toNat b.val.toNat with h | h | h
    · exact Or.inl (strLtB_cons_of_lt h)
    · rcases strLtB_trichot as bs with h2 | h2 | h2
      · exact Or.inl (strLtB_cons_of_eq h h2)
      · exact Or.inr (Or.inl (strLtB_cons_of_eq h.symm h2))
      · exact Or.inr (Or.inr (by rw [charEq_of_toNat h, h2]))
    · exact Or.inr (Or.inl (strLtB_cons_of_lt h))

theorem strLtB_trans : ∀ x y z : List Char,
    strLtB x y = true → strLtB y z = true → strLtB x z = true := by
  intro x
  induction x with
  | nil =>
    intro y z h1 h2
    cases z with
    | nil =>
      cases y with
      | nil => exact h2
      | cons b bs => exact absurd h2 (by simp [strLtB])
    | cons c cs => rfl
  | cons a as ih =>
    intro y z h1 h2
    cases y with
    | nil => exact absurd h1 (by simp [strLtB])
    | cons b bs =>
      cases z with
      | nil => exact absurd h2 (by simp [strLtB])
      | cons c cs =>
        rcases strLtB_true_cases h1 with hab | ⟨hab, h1e⟩ <;>
          rcases strLtB_true_cases h2 with hbc | ⟨hbc, h2e⟩
        · exact strLtB_cons_of_lt (Nat.lt_trans hab hbc)
        · exact strLtB_cons_of_lt (hbc ▸ hab)
        · exact strLtB_cons_of_lt (hab ▸ hbc)
        · exact strLtB_cons_of_eq (hab.trans hbc) (ih bs cs h1e h2e)

theorem strLeB_total (a b : String) : strLeB a b = true ∨ strLeB b a = true := by
  rcases strLtB_trichot a.data b.data with h | h | h
  · exact Or.inl (by simp [strLeB, h])
  · exact Or.inr (by simp [strLeB, h])
  · exact Or.inl (by simp [strLeB, String.ext h])

theorem strLeB_trans (a b c : String) (h1 : strLeB a b = true)
    (h2 : strLeB b c = true) : strLeB a c = true := by
  simp only [strLeB, Bool.or_eq_true, beq_iff_eq] at h1 h2 ⊢
  rcases h1 with rfl | h1
  · exact h2
  · rcases h2 with rfl | h2
    · exact Or.inr h1
    · exact Or.inr (strLtB_trans _ _ _ h1 h2)

/-- C4 counterexample: label-encoding the column ["b","a","b","a"]
(cardinality_threshold 1 forces label encoding) assigns integers in sorted
order: the mapping is ["a","b"] and the codes are [1,0,1,0], not the
first-observed order ["b","a"] with codes [0,1,0,1] that the claim
describes. -/
theorem encode_label_first_observed_cex :
    (encode_categoricals ctx0
        [("c", ⟨.object, [.str "b", .str "a", .str "b", .str "a"]⟩)]
        ["c"] 1 100).encoding_info
      = [⟨"c", .label, ["c"], 2, some ["a", "b"]⟩] ∧
    (encode_categoricals ctx0
        [("c", ⟨.object, [.str "b", .str "a", .str "b", .str "a"]⟩)]
        ["c"] 1 100).encoded_df
      = [("c", [1, 0, 1, 0])] ∧
    firstObserved ["b", "a", "b", "a"] = ["b", "a"] ∧
    (["a", "b"] : List String) ≠ ["b", "a"] := by decide

/-- C4 (amended): whenever encode_categoricals label-encodes a column, each
distinct category string is assigned an integer 0..k-1 in ascending
lexicographic order of the category strings (sklearn LabelEncoder sorts its
classes), not in order of first observation; the recorded label_mapping is
that sorted list, and index i recovers the category mapped to integer i: the
encoded value of every cell is the index of its string form in
label_mapping. -/
theorem label_encoding_sorted (ctx : PdCtx) (name : String) (nunique : Nat)
    (series : List Cell) :
    ((labelEncodeCol ctx name nunique series).2).label_mapping
        = some (labelClasses (series.map (Cell.pyStr ctx))) ∧
    (labelClasses (series.map (Cell.pyStr ctx))).Sorted
        (fun a b => strLeB a b = true) ∧
    (labelClasses (series.map (Cell.pyStr ctx))).Nodup ∧
    (labelEncodeCol ctx name nunique series).1.2
        = (series.map (Cell.pyStr ctx)).map
            (fun s => ((labelClasses (series.map (Cell.pyStr ctx))).indexOf s : ℚ)) ∧
    ∀ s ∈ series.map (Cell.pyStr ctx),
      (labelClasses (series.map (Cell.pyStr ctx))).indexOf s
          < (labelClasses (series.map (Cell.pyStr ctx))).length ∧
      (labelClasses (series.map (Cell.pyStr ctx))).getD
          ((labelClasses (series.map (Cell.pyStr ctx))).indexOf s) "" = s := by
  haveI : IsTotal String (fun a b => strLeB a b = true) := ⟨strLeB_total⟩
  haveI : IsTrans String (fun a b => strLeB a b = true) := ⟨strLeB_trans⟩
  have hperm : List.Perm (labelClasses (series.map (Cell.pyStr ctx)))
      ((series.map (Cell.pyStr ctx)).dedup) :=
    List.perm_insertionSort _ _
  refine ⟨rfl, List.sorted_insertionSort _ _,
    hperm.nodup_iff.mpr (series.map (Cell.pyStr ctx)).nodup_dedup, rfl, ?_⟩
  intro s hs
  have hmem : s ∈ labelClasses (series.map (Cell.pyStr ctx)) :=
    hperm.mem_iff.mpr (List.mem_dedup.mpr hs)
  have hlt := List.indexOf_lt_length.mpr hmem
  refine ⟨hlt, ?_⟩
  rw [List.getD_eq_getElem?_getD, List.getElem?_eq_getElem hlt]
  exact List.indexOf_get hlt

/-- Witness for label_encoding_sorted on the column ["b","a"]. -/
theorem label_encoding_sorted_witness :
    (labelClasses (([Cell.str "b", Cell.str "a"]).map (Cell.pyStr ctx0))).indexOf "b"
        < (labelClasses (([Cell.str "b", Cell.str "a"]).map (Cell.pyStr ctx0))).length ∧
    (labelClasses (([Cell.str "b", Cell.str "a"]).map (Cell.pyStr ctx0))).getD
        ((labelClasses (([Cell.str "b", Cell.str "a"]).map (Cell.pyStr ctx0))).indexOf "b") ""
      = "b" :=
  (label_encoding_sorted ctx0 "c" 2 [Cell.str "b", Cell.str "a"]).2.2.2.2 "b" (by decide)

/-- C9 counterexample: an object column holding only the string forms
"True"/"False" is not classified as boolean, because in Python the string
"True" is not equal to the boolean True, so set(uniques) <= {True, False}
fails; the classifier instead suggests one-hot with cardinality 2. -/
theorem classify_string_bool_cex :
    classify_column ctx0
        ⟨.object, [.str "True", .str "False", .str "True", .str "False"]⟩
      = ⟨some 2, some .oneHot, false⟩ ∧
    some EncType.oneHot ≠ some EncType.boolean := by decide

/-- C9 (amended): an object column whose non-null unique values are all
Python booleans is classified as boolean with cardinality 2, while a column
of boolean dtype is classified as numeric (pandas is_numeric_dtype counts
bool dtype as numeric, so the boolean check is never reached for it); string
forms "True"/"False" qualify for neither.  In encode_categoricals, a column
of boolean dtype or an all-Python-boolean object column that survives the
constant and ID-like checks is encoded by the boolean map, which sends
True/False (and their string forms) to 1/0 and missing values to 0. -/
theorem classify_encode_boolean (ctx : PdCtx) (c : Col) (name : String)
    (nRowsDf cardinality_threshold : Nat)
    (hbranch : c.dtype = .boolean ∨ (c.dtype = .object ∧
      ∀ x ∈ nonNullCells c.cells,
        (x.pyEq (.pybool true) || x.pyEq (.pybool false)) = true))
    (hnu : 1 < (pyDedup (nonNullCells c.cells)).length)
    (hratio : ¬ ((if 0 < nRowsDf then
        ((pyDedup (nonNullCells c.cells)).length : ℚ) / (nRowsDf : ℚ)
      else 0) > 9/10)) :
    (c.dtype = .object → classify_column ctx c = ⟨some 2, some .boolean, false⟩) ∧
    (∀ c2 : Col, c2.dtype = .boolean → classify_column ctx c2 = ⟨none, none, false⟩) ∧
    processColumn ctx nRowsDf cardinality_threshold name c
      = .part [(name, c.cells.map boolTo01)] ⟨name, .boolean, [name], 2, none⟩ ∧
    boolTo01 (.pybool true) = 1 ∧ boolTo01 (.pybool false) = 0 ∧
    boolTo01 (.str "True") = 1 ∧ boolTo01 (.str "False") = 0 ∧
    boolTo01 .missing = 0 := by
  refine ⟨?_, ?_, ?_, by decide, by decide, by decide, by decide, by decide⟩
  · intro hobj
    have hall : ∀ x ∈ nonNullCells c.cells,
        (x.pyEq (.pybool true) || x.pyEq (.pybool false)) = true := by
      rcases hbranch with h | h
      · rw [hobj] at h; cases h
      · exact h.2
    simp only [classify_column, hobj]
    rw [if_neg (by simp [isNumericDtype]), if_neg (by simp),
      if_pos (Or.inr ⟨trivial, List.all_eq_true.mpr hall⟩)]
  · intro c2 h2
    simp only [classify_column, h2]
    rw [if_pos (by simp [isNumericDtype])]
  · simp only [processColumn]
    rw [if_neg (by omega), if_neg hratio, if_pos ?_]
    rcases hbranch with h | h
    · exact Or.inl h
    · exact Or.inr ⟨h.1, List.all_eq_true.mpr h.2⟩

/-- Witness for classify_encode_boolean on a 4-row object column of Python
booleans with one missing value. -/
theorem classify_encode_boolean_witness :
    classify_column ctx0
        ⟨.object, [.pybool true, .pybool false, .pybool true, .missing]⟩
      = ⟨some 2, some .boolean, false⟩ ∧
    processColumn ctx0 4 10 "b"
        ⟨.object, [.pybool true, .pybool false, .pybool true, .missing]⟩
      = .part [("b", [1, 0, 1, 0])] ⟨"b", .boolean, ["b"], 2, none⟩ := by
  have h := classify_encode_boolean ctx0
    ⟨.object, [.pybool true, .pybool false, .pybool true, .missing]⟩ "b" 4 10
    (Or.inr ⟨rfl, by decide⟩) (by decide) (by decide)
  refine ⟨h.1 rfl, ?_⟩
  rw [h.2.2.1]
  decide

theorem processColumn_part_original (ctx : PdCtx) (n th : Nat) (name : String)
    (c : Col) (cols : NumDF) (info : EncInfo)
    (h : processColumn ctx n th name c = .part cols info) :
    info.original_column = name := by
  simp only [processColumn] at h
  split_ifs at h <;> (injection h with h1 h2; subst h2; rfl)

theorem encodePass1_mem (ctx : PdCtx) (n th : Nat) :
    ∀ cols : List (String × Col),
      (∀ e ∈ (encodePass1 ctx n th cols).2.1,
        e.original_column ∈ cols.map (·.1)) ∧
      (∀ s ∈ (encodePass1 ctx n th cols).2.2.1, s.1 ∈ cols.map (·.1)) ∧
      (∀ cd ∈ (encodePass1 ctx n th cols).2.2.2, cd.1 ∈ cols.map (·.1)) := by
  intro cols
  induction cols with
  | nil => refine ⟨by simp [encodePass1], by simp [encodePass1], by simp [encodePass1]⟩
  | cons hd tl ih =>
    obtain ⟨nm, cc⟩ := hd
    cases hact : processColumn ctx n th nm cc with
    | skip r =>
      refine ⟨?_, ?_, ?_⟩ <;> intro e he <;>
        simp only [encodePass1, hact] at he
      · exact List.mem_cons_of_mem _ (ih.1 e he)
      · rcases List.mem_cons.mp he with h | h
        · rw [h]; exact List.mem_cons_self _ _
        · exact List.mem_cons_of_mem _ (ih.2.1 e h)
      · exact List.mem_cons_of_mem _ (ih.2.2 e he)
    | part cols0 info =>
      refine ⟨?_, ?_, ?_⟩ <;> intro e he <;>
        simp only [encodePass1, hact] at he
      · rcases List.mem_cons.mp he with h | h
        · rw [h, processColumn_part_original ctx n th nm cc cols0 info hact]
          exact List.mem_cons_self _ _
        · exact List.mem_cons_of_mem _ (ih.1 e h)
      · exact List.mem_cons_of_mem _ (ih.2.1 e he)
      · exact List.mem_cons_of_mem _ (ih.2.2 e he)
    | oneHotCand nu ser =>
      refine ⟨?_, ?_, ?_⟩ <;> intro e he <;>
        simp only [encodePass1, hact] at he
      · exact List.mem_cons_of_mem _ (ih.1 e he)
      · exact List.mem_cons_of_mem _ (ih.2.1 e he)
      · rcases List.mem_cons.mp he with h | h
        · rw [h]; exact List.mem_cons_self _ _
        · exact List.mem_cons_of_mem _ (ih.2.2 e h)

theorem processCandidates_mem (ctx : PdCtx) (mx : Nat) :
    ∀ (cands : List (String × Nat × List Cell)) (cur : Nat),
      ∀ e ∈ (processCandidates ctx mx cands cur).2,
        e.original_column ∈ cands.map (·.1) := by
  intro cands
  induction cands with
  | nil => intro cur e he; simp [processCandidates] at he
  | cons hd tl ih =>
    obtain ⟨nm, nu, ser⟩ := hd
    intro cur e he
    simp only [processCandidates] at he
    split_ifs at he
    · rcases List.mem_cons.mp he with h | h
      · rw [h]; exact List.mem_cons_self _ _
      · exact List.mem_cons_of_mem _ (ih _ e h)
    · rcases List.mem_cons.mp he with h | h
      · rw [h]; exact List.mem_cons_self _ _
      · exact List.mem_cons_of_mem _ (ih _ e h)

/-- C8 counterexample: the column "m" has 75 percent missing values and is
dropped from the encoding, yet the skipped-columns audit is empty (the drop
is silent, not reported); moreover a column "h" with exactly 50 percent
missing values is kept and encoded, so the "at least 50%" boundary of the
claim is also wrong (the code drops only strictly more than 50 percent). -/
theorem encode_halfmissing_silent_cex :
    (encode_categoricals ctx0
        [("m", ⟨.object, [.str "a", .missing, .missing, .missing]⟩),
         ("k", ⟨.object, [.str "x", .str "y", .str "x", .str "y"]⟩)]
        ["m", "k"] 10 100).skipped_columns = [] ∧
    ((encode_categoricals ctx0
        [("m", ⟨.object, [.str "a", .missing, .missing, .missing]⟩),
         ("k", ⟨.object, [.str "x", .str "y", .str "x", .str "y"]⟩)]
        ["m", "k"] 10 100).encoding_info.map (·.original_column)) = ["k"] ∧
    ((encode_categoricals ctx0
        [("h", ⟨.object, [.str "x", .str "y", .missing, .missing]⟩)]
        ["h"] 10 100).encoding_info.map (·.original_column)) = ["h"] := by
  decide

theorem encode_eq_main (ctx : PdCtx) (df : DF) (ccols : List String)
    (th mx : Nat) (h1 : ccols ≠ [])
    (h2 : ccols.filter (fun c => (DF.names df).contains c) ≠ []) :
    encode_categoricals ctx df ccols th mx
      = encodeMain ctx df (ccols.filter (fun c => (DF.names df).contains c)) th mx := by
  simp only [encode_categoricals]
  rw [if_neg h1, if_neg h2]

theorem encode_eq_empty (ctx : PdCtx) (df : DF) (ccols : List String)
    (th mx : Nat) (h2 : ccols.filter (fun c => (DF.names df).contains c) = []) :
    encode_categoricals ctx df ccols th mx = ⟨[], [], []⟩ := by
  by_cases h1 : ccols = []
  · simp only [encode_categoricals, if_pos h1]
  · simp only [encode_categoricals]
    rw [if_neg h1, if_pos h2]

theorem valid_name_gives (df : DF) (cat_cols : List String) (name : String)
    (hm : name ∈ ((cat_cols.filterMap
        (fun c => (df.col? c).map (fun col => (c, col)))).filter
          (fun p => 2 * p.2.nnCount ≥ DF.nRows df)).map (·.1)) :
    ∃ cc, df.col? name = some cc ∧ 2 * cc.nnCount ≥ DF.nRows df := by
  obtain ⟨p, hp, hpeq⟩ := List.mem_map.mp hm
  have hp2 := List.mem_filter.mp hp
  obtain ⟨c0, _, hc0eq⟩ := List.mem_filterMap.mp hp2.1
  obtain ⟨cc, hcc, hcceq⟩ := Option.map_eq_some'.mp hc0eq
  subst hcceq
  simp only at hpeq
  subst hpeq
  refine ⟨cc, hcc, ?_⟩
  simpa using hp2.2

theorem encodeMain_not_name (ctx : PdCtx) (df : DF) (cat_cols : List String)
    (th mx : Nat) (name : String)
    (hdrop : ∀ cc, df.col? name = some cc → 2 * cc.nnCount < DF.nRows df) :
    (∀ e ∈ (encodeMain ctx df cat_cols th mx).encoding_info,
      e.original_column ≠ name) ∧
    (∀ s ∈ (encodeMain ctx df cat_cols th mx).skipped_columns, s.1 ≠ name) := by
  have hnoname : name ∉ ((cat_cols.filterMap
      (fun c => (df.col? c).map (fun col => (c, col)))).filter
        (fun p => 2 * p.2.nnCount ≥ DF.nRows df)).map (·.1) := by
    intro hm
    obtain ⟨cc, hcc, hge⟩ := valid_name_gives df cat_cols name hm
    exact absurd hge (by have := hdrop cc hcc; omega)
  constructor
  · intro e he hcontra
    simp only [encodeMain] at he
    rcases List.mem_append.mp he with hm | hm
    · have hv := (encodePass1_mem ctx (DF.nRows df) th _).1 e hm
      rw [hcontra] at hv
      exact hnoname hv
    · have hsc := processCandidates_mem ctx mx _ _ e hm
      have hperm := List.perm_insertionSort
        (fun (a b : String × Nat × List Cell) => b.2.1 ≤ a.2.1)
        ((encodePass1 ctx (DF.nRows df) th
          ((cat_cols.filterMap
            (fun c => (df.col? c).map (fun col => (c, col)))).filter
              (fun p => 2 * p.2.nnCount ≥ DF.nRows df))).2.2.2)
      have hmem2 := (hperm.map (·.1)).mem_iff.mp hsc
      obtain ⟨cd, hcd, hcdeq⟩ := List.mem_map.mp hmem2
      have hv := (encodePass1_mem ctx (DF.nRows df) th _).2.2 cd hcd
      rw [hcdeq, hcontra] at hv
      exact hnoname hv
  · intro s hs hcontra
    simp only [encodeMain] at hs
    have hv := (encodePass1_mem ctx (DF.nRows df) th _).2.1 s hs
    rw [hcontra] at hv
    exact hnoname hv

/-- C8 (amended): encode_categoricals silently ignores selected columns that
are missing from the dataset (filtering the selection to the existing columns
changes nothing), and every selected column with strictly more than 50
percent missing values is dropped from the encoding silently: it yields no
encoding_info entry and, contrary to the claim, does not appear in the
skipped-columns audit either. -/
theorem encode_missing_ignored_silent_drop (ctx : PdCtx) (df : DF)
    (ccols : List String) (th mx : Nat) (name : String)
    (hdrop : ∀ cc, df.col? name = some cc → 2 * cc.nnCount < DF.nRows df) :
    encode_categoricals ctx df ccols th mx
      = encode_categoricals ctx df
          (ccols.filter (fun c => (DF.names df).contains c)) th mx ∧
    (∀ e ∈ (encode_categoricals ctx df ccols th mx).encoding_info,
      e.original_column ≠ name) ∧
    (∀ s ∈ (encode_categoricals ctx df ccols th mx).skipped_columns,
      s.1 ≠ name) := by
  have hfilter : (ccols.filter (fun c => (DF.names df).contains c)).filter
      (fun c => (DF.names df).contains c)
      = ccols.filter (fun c => (DF.names df).contains c) := by
    rw [List.filter_filter]
    exact List.filter_congr (fun a _ => Bool.and_self _)
  by_cases h2 : ccols.filter (fun c => (DF.names df).contains c) = []
  · have hL := encode_eq_empty ctx df ccols th mx h2
    have hR := encode_eq_empty ctx df
      (ccols.filter (fun c => (DF.names df).contains c)) th mx
      (by rw [hfilter]; exact h2)
    refine ⟨hL.trans hR.symm, ?_, ?_⟩
    · intro e he
      rw [hL] at he
      exact absurd he (List.not_mem_nil e)
    · intro s hs
      rw [hL] at hs
      exact absurd hs (List.not_mem_nil s)
  · have h1 : ccols ≠ [] := by
      intro h
      rw [h] at h2
      exact h2 rfl
    have hL := encode_eq_main ctx df ccols th mx h1 h2
    have hR := encode_eq_main ctx df
      (ccols.filter (fun c => (DF.names df).contains c)) th mx h2
      (by rw [hfilter]; exact h2)
    have hmain := encodeMain_not_name ctx df
      (ccols.filter (fun c => (DF.names df).contains c)) th mx name hdrop
    refine ⟨by rw [hL, hR, hfilter], ?_, ?_⟩
    · intro e he
      rw [hL] at he
      exact hmain.1 e he
    · intro s hs
      rw [hL] at hs
      exact hmain.2 s hs

/-- Witness for encode_missing_ignored_silent_drop: the selection lists a
column absent from the frame ("ghost") and a 75-percent-missing column
("m"); filtering the selection to existing columns changes nothing. -/
theorem encode_missing_ignored_silent_drop_witness :
    encode_categoricals ctx0
        [("m", ⟨.object, [.str "a", .missing, .missing, .missing]⟩),
         ("k", ⟨.object, [.str "x", .str "y", .str "x", .str "y"]⟩)]
        ["m", "ghost", "k"] 10 100
      = encode_categoricals ctx0
          [("m", ⟨.object, [.str "a", .missing, .missing, .missing]⟩),
           ("k", ⟨.object, [.str "x", .str "y", .str "x", .str "y"]⟩)]
          (["m", "ghost", "k"].filter (fun c => (DF.names
            [("m", ⟨.object, [.str "a", .missing, .missing, .missing]⟩),
             ("k", ⟨.object, [.str "x", .str "y", .str "x", .str "y"]⟩)]).contains c))
          10 100 :=
  (encode_missing_ignored_silent_drop ctx0
    [("m", ⟨.object, [.str "a", .missing, .missing, .missing]⟩),
     ("k", ⟨.object, [.str "x", .str "y", .str "x", .str "y"]⟩)]
    ["m", "ghost", "k"] 10 100 "m"
    (fun cc hcc => by
      have h2 : some (⟨.object, [.str "a", .missing, .missing, .missing]⟩ : Col)
          = some cc := hcc
      obtain rfl := Option.some.inj h2
      decide)).1

set_option maxRecDepth 8000 in
/-- C5: one-hot candidates are processed only after all other columns (the
second pass), in descending-cardinality order; the second pass yields exactly
one encoding_info entry per candidate in order (none skipped); a candidate
whose estimated nunique - 1 new columns would push the running column total
past max_total_features is downgraded to label encoding, contributing
exactly one column, and otherwise it is one-hot encoded; in particular, with
two 60-distinct-value columns and max_total_features = 100, the first is
one-hot encoded, the second is downgraded to label, and the total encoded
column count is 60 <= 100. -/
theorem encode_one_hot_cap (ctx : PdCtx) :
    (∀ cands : List (String × Nat × List Cell),
      ((sortCandidates cands).map (·.2.1)).Sorted (fun a b => b ≤ a)) ∧
    (∀ (mx : Nat) (cands : List (String × Nat × List Cell)) (cur : Nat),
      ((processCandidates ctx mx cands cur).2).map (·.original_column)
        = cands.map (·.1)) ∧
    (∀ (mx : Nat) (name : String) (k : Nat) (series : List Cell)
        (rest : List (String × Nat × List Cell)) (cur : Nat),
      mx < cur + (k - 1) →
        processCandidates ctx mx ((name, k, series) :: rest) cur
          = ((labelEncodeCol ctx name k series).1
                :: (processCandidates ctx mx rest (cur + 1)).1,
             (labelEncodeCol ctx name k series).2
                :: (processCandidates ctx mx rest (cur + 1)).2) ∧
        (labelEncodeCol ctx name k series).2.encoding_type = .label ∧
        (labelEncodeCol ctx name k series).2.new_columns = [name]) ∧
    (∀ (mx : Nat) (name : String) (k : Nat) (series : List Cell)
        (rest : List (String × Nat × List Cell)) (cur : Nat),
      ¬ mx < cur + (k - 1) →
        processCandidates ctx mx ((name, k, series) :: rest) cur
          = (oneHotCol ctx name series
                ++ (processCandidates ctx mx rest
                      (cur + (oneHotCol ctx name series).length)).1,
             { original_column := name, encoding_type := .oneHot,
               new_columns := (oneHotCol ctx name series).map (·.1),
               cardinality := k }
                :: (processCandidates ctx mx rest
                      (cur + (oneHotCol ctx name series).length)).2)) ∧
    ((encode_categoricals ctx0 dfCap ["cat_a", "cat_b"] 100 100).encoding_info.map
        (fun e => (e.original_column, e.encoding_type))
      = [("cat_a", .oneHot), ("cat_b", .label)] ∧
     (encode_categoricals ctx0 dfCap ["cat_a", "cat_b"] 100 100).encoded_df.length
        = 60 ∧ 60 ≤ 100) := by
  refine ⟨?_, ?_, ?_, ?_, by decide, by decide, by decide⟩
  · intro cands
    haveI : IsTotal (String × Nat × List Cell) (fun a b => b.2.1 ≤ a.2.1) :=
      ⟨fun a b => le_total b.2.1 a.2.1⟩
    haveI : IsTrans (String × Nat × List Cell) (fun a b => b.2.1 ≤ a.2.1) :=
      ⟨fun _ _ _ hab hbc => hbc.trans hab⟩
    exact (List.pairwise_map).mpr (List.sorted_insertionSort _ cands)
  · intro mx cands
    induction cands with
    | nil => intro cur; rfl
    | cons hd tl ih =>
      obtain ⟨nm, k, ser⟩ := hd
      intro cur
      simp only [processCandidates]
      split_ifs <;> simp [ih, labelEncodeCol]
  · intro mx name k series rest cur h
    refine ⟨?_, rfl, rfl⟩
    simp only [processCandidates, if_pos h]
  · intro mx name k series rest cur h
    simp only [processCandidates, if_neg h]

/-- Witness for encode_one_hot_cap: a candidate of cardinality 10 with the
cap already exceeded is downgraded to a single label column. -/
theorem encode_one_hot_cap_witness :
    processCandidates ctx0 3 [("x", 10, [])] 0
      = ((labelEncodeCol ctx0 "x" 10 []).1
            :: (processCandidates ctx0 3 [] (0 + 1)).1,
         (labelEncodeCol ctx0 "x" 10 []).2
            :: (processCandidates ctx0 3 [] (0 + 1)).2) ∧
    (labelEncodeCol ctx0 "x" 10 []).2.encoding_type = .label ∧
    (labelEncodeCol ctx0 "x" 10 []).2.new_columns = ["x"] :=
  (encode_one_hot_cap ctx0).2.2.1 3 "x" 10 [] [] 0 (by decide)

theorem sweepK_cons_none {km : Nat → Option (List ℤ)}
    {score : Nat → List ℤ → Option ℚ} {k0 : Nat} (ks : List Nat) (b : Nat)
    (s : ℚ) (h : km k0 = none) :
    sweepK km score (k0 :: ks) (b, s) = sweepK km score ks (b, s) := by
  simp only [sweepK, h]

theorem sweepK_cons_few {km : Nat → Option (List ℤ)}
    {score : Nat → List ℤ → Option ℚ} {k0 : Nat} {labels : List ℤ}
    (ks : List Nat) (b : Nat) (s : ℚ) (h : km k0 = some labels)
    (hd : (labels.dedup).length < 2) :
    sweepK km score (k0 :: ks) (b, s) = sweepK km score ks (b, s) := by
  simp only [sweepK, h]
  rw [if_pos hd]

theorem sweepK_cons_noscore {km : Nat → Option (List ℤ)}
    {score : Nat → List ℤ → Option ℚ} {k0 : Nat} {labels : List ℤ}
    (ks : List Nat) (b : Nat) (s : ℚ) (h : km k0 = some labels)
    (hd : 2 ≤ (labels.dedup).length) (hs : score k0 labels = none) :
    sweepK km score (k0 :: ks) (b, s) = sweepK km score ks (b, s) := by
  simp only [sweepK, h]
  rw [if_neg (not_lt.mpr hd)]
  simp only [hs]

theorem sweepK_cons_better {km : Nat → Option (List ℤ)}
    {score : Nat → List ℤ → Option ℚ} {k0 : Nat} {labels : List ℤ} {sc : ℚ}
    (ks : List Nat) (b : Nat) (s : ℚ) (h : km k0 = some labels)
    (hd : 2 ≤ (labels.dedup).length) (hs : score k0 labels = some sc)
    (himp : s < sc) :
    sweepK km score (k0 :: ks) (b, s) = sweepK km score ks (k0, sc) := by
  simp only [sweepK, h]
  rw [if_neg (not_lt.mpr hd)]
  simp only [hs]
  rw [if_pos himp]

theorem sweepK_cons_worse {km : Nat → Option (List ℤ)}
    {score : Nat → List ℤ → Option ℚ} {k0 : Nat} {labels : List ℤ} {sc : ℚ}
    (ks : List Nat) (b : Nat) (s : ℚ) (h : km k0 = some labels)
    (hd : 2 ≤ (labels.dedup).length) (hs : score k0 labels = some sc)
    (himp : ¬ s < sc) :
    sweepK km score (k0 :: ks) (b, s) = sweepK km score ks (b, s) := by
  simp only [sweepK, h]
  rw [if_neg (not_lt.mpr hd)]
  simp only [hs]
  rw [if_neg himp]

theorem sweepK_snd_ge (km : Nat → Option (List ℤ))
    (score : Nat → List ℤ → Option ℚ) :
    ∀ (ks : List Nat) (b : Nat) (s : ℚ), s ≤ (sweepK km score ks (b, s)).2 := by
  intro ks
  induction ks with
  | nil => intro b s; exact le_refl s
  | cons k0 ks ih =>
    intro b s
    rcases hkm : km k0 with _ | labels
    · rw [sweepK_cons_none ks b s hkm]; exact ih b s
    · by_cases hd : (labels.dedup).length < 2
      · rw [sweepK_cons_few ks b s hkm hd]; exact ih b s
      · have hd2 := not_lt.mp hd
        rcases hsc : score k0 labels with _ | sc
        · rw [sweepK_cons_noscore ks b s hkm hd2 hsc]; exact ih b s
        · by_cases himp : s < sc
          · rw [sweepK_cons_better ks b s hkm hd2 hsc himp]
            exact le_of_lt (lt_of_lt_of_le himp (ih k0 sc))
          · rw [sweepK_cons_worse ks b s hkm hd2 hsc himp]; exact ih b s

theorem sweepK_fst_of_stuck (km : Nat → Option (List ℤ))
    (score : Nat → List ℤ → Option ℚ) :
    ∀ (ks : List Nat) (b : Nat) (s : ℚ),
      (sweepK km score ks (b, s)).2 = s → (sweepK km score ks (b, s)).1 = b := by
  intro ks
  induction ks with
  | nil => intro b s _; rfl
  | cons k0 ks ih =>
    intro b s h
    rcases hkm : km k0 with _ | labels
    · rw [sweepK_cons_none ks b s hkm] at h ⊢; exact ih b s h
    · by_cases hd : (labels.dedup).length < 2
      · rw [sweepK_cons_few ks b s hkm hd] at h ⊢; exact ih b s h
      · have hd2 := not_lt.mp hd
        rcases hsc : score k0 labels with _ | sc
        · rw [sweepK_cons_noscore ks b s hkm hd2 hsc] at h ⊢; exact ih b s h
        · by_cases himp : s < sc
          · rw [sweepK_cons_better ks b s hkm hd2 hsc himp] at h ⊢
            exfalso
            have := sweepK_snd_ge km score ks k0 sc
            rw [h] at this
            exact absurd himp (not_lt.mpr this)
          · rw [sweepK_cons_worse ks b s hkm hd2 hsc himp] at h ⊢; exact ih b s h

theorem sweepK_all_skip (km : Nat → Option (List ℤ))
    (score : Nat → List ℤ → Option ℚ) :
    ∀ (ks : List Nat) (b : Nat) (s : ℚ),
      (∀ k ∈ ks, ∀ labels, km k = some labels → (labels.dedup).length < 2) →
      sweepK km score ks (b, s) = (b, s) := by
  intro ks
  induction ks with
  | nil => intro b s _; rfl
  | cons k0 ks ih =>
    intro b s h
    rcases hkm : km k0 with _ | labels
    · rw [sweepK_cons_none ks b s hkm]
      exact ih b s (fun k hk => h k (List.mem_cons_of_mem _ hk))
    · rw [sweepK_cons_few ks b s hkm (h k0 (List.mem_cons_self _ _) labels hkm)]
      exact ih b s (fun k hk => h k (List.mem_cons_of_mem _ hk))

theorem sweepK_ub (km : Nat → Option (List ℤ))
    (score : Nat → List ℤ → Option ℚ) :
    ∀ (ks : List Nat) (b : Nat) (s : ℚ) (k : Nat) (labels : List ℤ) (sc : ℚ),
      k ∈ ks → km k = some labels → 2 ≤ (labels.dedup).length →
      score k labels = some sc → sc ≤ (sweepK km score ks (b, s)).2 := by
  intro ks
  induction ks with
  | nil => intro b s k labels sc hk; cases hk
  | cons k0 ks ih =>
    intro b s k labels sc hk hkm hd hsc
    rcases List.mem_cons.mp hk with rfl | hk2
    · by_cases himp : s < sc
      · rw [sweepK_cons_better ks b s hkm hd hsc himp]
        exact sweepK_snd_ge km score ks k sc
      · rw [sweepK_cons_worse ks b s hkm hd hsc himp]
        exact le_trans (not_lt.mp himp) (sweepK_snd_ge km score ks b s)
    · rcases hkm0 : km k0 with _ | labels0
      · rw [sweepK_cons_none ks b s hkm0]
        exact ih b s k labels sc hk2 hkm hd hsc
      · by_cases hd0 : (labels0.dedup).length < 2
        · rw [sweepK_cons_few ks b s hkm0 hd0]
          exact ih b s k labels sc hk2 hkm hd hsc
        · have hd02 := not_lt.mp hd0
          rcases hsc0 : score k0 labels0 with _ | sc0
          · rw [sweepK_cons_noscore ks b s hkm0 hd02 hsc0]
            exact ih b s k labels sc hk2 hkm hd hsc
          · by_cases himp : s < sc0
            · rw [sweepK_cons_better ks b s hkm0 hd02 hsc0 himp]
              exact ih k0 sc0 k labels sc hk2 hkm hd hsc
            · rw [sweepK_cons_worse ks b s hkm0 hd02 hsc0 himp]
              exact ih b s k labels sc hk2 hkm hd hsc

theorem sweepK_first_tie (km : Nat → Option (List ℤ))
    (score : Nat → List ℤ → Option ℚ) :
    ∀ (ks : List Nat) (b : Nat) (s : ℚ),
      List.Pairwise (· < ·) ks → (∀ x ∈ ks, b ≤ x) →
      ∀ (k : Nat) (labels : List ℤ) (sc : ℚ),
        k ∈ ks → km k = some labels → 2 ≤ (labels.dedup).length →
        score k labels = some sc → sc = (sweepK km score ks (b, s)).2 →
        (sweepK km score ks (b, s)).1 ≤ k := by
  intro ks
  induction ks with
  | nil => intro b s _ _ k labels sc hk; cases hk
  | cons k0 ks ih =>
    intro b s hpw hble k labels sc hk hkm hd hsc hfin
    have hpw2 := List.pairwise_cons.mp hpw
    rcases List.mem_cons.mp hk with rfl | hk2
    · by_cases himp : s < sc
      · rw [sweepK_cons_better ks b s hkm hd hsc himp] at hfin ⊢
        exact le_of_eq (sweepK_fst_of_stuck km score ks k sc hfin.symm)
      · rw [sweepK_cons_worse ks b s hkm hd hsc himp] at hfin ⊢
        have h1 : sc ≤ s := not_lt.mp himp
        have h2 : s ≤ (sweepK km score ks (b, s)).2 := sweepK_snd_ge km score ks b s
        have h3 : (sweepK km score ks (b, s)).2 = s := le_antisymm (hfin ▸ h1) h2
        rw [sweepK_fst_of_stuck km score ks b s h3]
        exact hble k (List.mem_cons_self _ _)
    · rcases hkm0 : km k0 with _ | labels0
      · rw [sweepK_cons_none ks b s hkm0] at hfin ⊢
        exact ih b s hpw2.2 (fun x hx => hble x (List.mem_cons_of_mem _ hx))
          k labels sc hk2 hkm hd hsc hfin
      · by_cases hd0 : (labels0.dedup).length < 2
        · rw [sweepK_cons_few ks b s hkm0 hd0] at hfin ⊢
          exact ih b s hpw2.2 (fun x hx => hble x (List.mem_cons_of_mem _ hx))
            k labels sc hk2 hkm hd hsc hfin
        · have hd02 := not_lt.mp hd0
          rcases hsc0 : score k0 labels0 with _ | sc0
          · rw [sweepK_cons_noscore ks b s hkm0 hd02 hsc0] at hfin ⊢
            exact ih b s hpw2.2 (fun x hx => hble x (List.mem_cons_of_mem _ hx))
              k labels sc hk2 hkm hd hsc hfin
          · by_cases himp : s < sc0
            · rw [sweepK_cons_better ks b s hkm0 hd02 hsc0 himp] at hfin ⊢
              exact ih k0 sc0 hpw2.2 (fun x hx => le_of_lt (hpw2.1 x hx))
                k labels sc hk2 hkm hd hsc hfin
            · rw [sweepK_cons_worse ks b s hkm0 hd02 hsc0 himp] at hfin ⊢
              exact ih b s hpw2.2 (fun x hx => hble x (List.mem_cons_of_mem _ hx))
                k labels sc hk2 hkm hd hsc hfin

theorem candScore_none_of_km {km : Nat → Option (List ℤ)}
    {score : Nat → List ℤ → Option ℚ} {k : Nat} (h : km k = none) :
    candScore km score k = none := by
  simp only [candScore, h]

theorem candScore_none_of_few {km : Nat → Option (List ℤ)}
    {score : Nat → List ℤ → Option ℚ} {k : Nat} {labels : List ℤ}
    (h : km k = some labels) (hd : (labels.dedup).length < 2) :
    candScore km score k = none := by
  simp only [candScore, h]
  rw [if_pos hd]

theorem candScore_eq_score {km : Nat → Option (List ℤ)}
    {score : Nat → List ℤ → Option ℚ} {k : Nat} {labels : List ℤ}
    (h : km k = some labels) (hd : 2 ≤ (labels.dedup).length) :
    candScore km score k = score k labels := by
  simp only [candScore, h]
  rw [if_neg (not_lt.mpr hd)]

theorem sweepK_cons_skip {km : Nat → Option (List ℤ)}
    {score : Nat → List ℤ → Option ℚ} {k0 : Nat} (ks : List Nat) (b : Nat)
    (s : ℚ) (hc : candScore km score k0 = none) :
    sweepK km score (k0 :: ks) (b, s) = sweepK km score ks (b, s) := by
  rcases hkm : km k0 with _ | labels
  · exact sweepK_cons_none ks b s hkm
  · by_cases hd : (labels.dedup).length < 2
    · exact sweepK_cons_few ks b s hkm hd
    · have hd2 := not_lt.mp hd
      rw [candScore_eq_score hkm hd2] at hc
      exact sweepK_cons_noscore ks b s hkm hd2 hc

theorem sweepK_cons_cand {km : Nat → Option (List ℤ)}
    {score : Nat → List ℤ → Option ℚ} {k0 : Nat} {sc : ℚ} (ks : List Nat)
    (b : Nat) (s : ℚ) (hc : candScore km score k0 = some sc) :
    (s < sc → sweepK km score (k0 :: ks) (b, s) = sweepK km score ks (k0, sc)) ∧
    (¬ s < sc → sweepK km score (k0 :: ks) (b, s) = sweepK km score ks (b, s)) := by
  rcases hkm : km k0 with _ | labels
  · rw [@candScore_none_of_km km score k0 hkm] at hc
    cases hc
  · by_cases hd : (labels.dedup).length < 2
    · rw [candScore_none_of_few hkm hd] at hc
      cases hc
    · have hd2 := not_lt.mp hd
      rw [candScore_eq_score hkm hd2] at hc
      exact ⟨fun himp => sweepK_cons_better ks b s hkm hd2 hc himp,
             fun himp => sweepK_cons_worse ks b s hkm hd2 hc himp⟩

/-- Full characterization of the sweep on a strictly increasing k list:
either no candidate beats the incoming best score and the accumulator is
returned unchanged, or the result is a candidate k in the list whose own
score is the final best, that final best strictly improves the incoming one
and dominates every candidate score, and every candidate strictly below the
returned k scores strictly below it (so the first attaining k wins ties). -/
theorem sweepK_char (km : Nat → Option (List ℤ))
    (score : Nat → List ℤ → Option ℚ) :
    ∀ (ks : List Nat) (b : Nat) (s : ℚ), List.Pairwise (· < ·) ks →
      (sweepK km score ks (b, s) = (b, s) ∧
        ∀ k ∈ ks, ∀ sc, candScore km score k = some sc → sc ≤ s) ∨
      ((sweepK km score ks (b, s)).1 ∈ ks ∧
        candScore km score (sweepK km score ks (b, s)).1
          = some (sweepK km score ks (b, s)).2 ∧
        s < (sweepK km score ks (b, s)).2 ∧
        (∀ k ∈ ks, ∀ sc, candScore km score k = some sc →
          sc ≤ (sweepK km score ks (b, s)).2) ∧
        (∀ k ∈ ks, k < (sweepK km score ks (b, s)).1 → ∀ sc,
          candScore km score k = some sc → sc < (sweepK km score ks (b, s)).2)) := by
  intro ks
  induction ks with
  | nil =>
    intro b s _
    exact Or.inl ⟨rfl, fun k hk => absurd hk (List.not_mem_nil k)⟩
  | cons k0 ks ih =>
    intro b s hpw
    have hpw2 := List.pairwise_cons.mp hpw
    rcases hc : candScore km score k0 with _ | sc0
    · rw [sweepK_cons_skip ks b s hc]
      rcases ih b s hpw2.2 with ⟨heq, hb⟩ | ⟨hmem, hcand, hlt, hub, hfirst⟩
      · refine Or.inl ⟨heq, fun k hk sc hsc => ?_⟩
        rcases List.mem_cons.mp hk with rfl | hk2
        · rw [hc] at hsc; cases hsc
        · exact hb k hk2 sc hsc
      · refine Or.inr ⟨List.mem_cons_of_mem _ hmem, hcand, hlt,
          fun k hk sc hsc => ?_, fun k hk hklt sc hsc => ?_⟩
        · rcases List.mem_cons.mp hk with rfl | hk2
          · rw [hc] at hsc; cases hsc
          · exact hub k hk2 sc hsc
        · rcases List.mem_cons.mp hk with rfl | hk2
          · rw [hc] at hsc; cases hsc
          · exact hfirst k hk2 hklt sc hsc
    · by_cases himp : s < sc0
      · rw [(sweepK_cons_cand ks b s hc).1 himp]
        rcases ih k0 sc0 hpw2.2 with ⟨heq, hb⟩ | ⟨hmem, hcand, hlt, hub, hfirst⟩
        · rw [heq]
          refine Or.inr ⟨List.mem_cons_self _ _, hc, himp,
            fun k hk sc hsc => ?_, fun k hk hklt sc hsc => ?_⟩
          · rcases List.mem_cons.mp hk with rfl | hk2
            · exact le_of_eq (Option.some.inj (hsc.symm.trans hc))
            · exact hb k hk2 sc hsc
          · rcases List.mem_cons.mp hk with rfl | hk2
            · exact absurd hklt (lt_irrefl _)
            · exact absurd hklt (not_lt.mpr (le_of_lt (hpw2.1 k hk2)))
        · refine Or.inr ⟨List.mem_cons_of_mem _ hmem, hcand,
            lt_trans himp hlt, fun k hk sc hsc => ?_, fun k hk hklt sc hsc => ?_⟩
          · rcases List.mem_cons.mp hk with rfl | hk2
            · rw [Option.some.inj (hsc.symm.trans hc)]
              exact le_of_lt hlt
            · exact hub k hk2 sc hsc
          · rcases List.mem_cons.mp hk with rfl | hk2
            · rw [Option.some.inj (hsc.symm.trans hc)]
              exact hlt
            · exact hfirst k hk2 hklt sc hsc
      · rw [(sweepK_cons_cand ks b s hc).2 himp]
        have hle : sc0 ≤ s := not_lt.mp himp
        rcases ih b s hpw2.2 with ⟨heq, hb⟩ | ⟨hmem, hcand, hlt, hub, hfirst⟩
        · refine Or.inl ⟨heq, fun k hk sc hsc => ?_⟩
          rcases List.mem_cons.mp hk with rfl | hk2
          · rw [Option.some.inj (hsc.symm.trans hc)]
            exact hle
          · exact hb k hk2 sc hsc
        · refine Or.inr ⟨List.mem_cons_of_mem _ hmem, hcand, hlt,
            fun k hk sc hsc => ?_, fun k hk hklt sc hsc => ?_⟩
          · rcases List.mem_cons.mp hk with rfl | hk2
            · rw [Option.some.inj (hsc.symm.trans hc)]
              exact le_of_lt (lt_of_le_of_lt hle hlt)
            · exact hub k hk2 sc hsc
          · rcases List.mem_cons.mp hk with rfl | hk2
            · rw [Option.some.inj (hsc.symm.trans hc)]
              exact lt_of_le_of_lt hle hlt
            · exact hfirst k hk2 hklt sc hsc

/-- C3 counterexample: with 9 rows the sweep tries k = 2, 3.  At k = 3 the
labels collapse to only 2 distinct clusters, fewer than k; the claim says
such a k is skipped (which would leave no candidate and return the default
2), but the code only skips when fewer than 2 distinct labels exist, keeps
k = 3, and returns 3. -/
theorem find_optimal_k_skip_cex :
    find_optimal_k 9 cexKm cexScore = 3 ∧
    (cexKm 3).map (fun labels => (labels.dedup).length) = some 2 ∧
    (cexKm 2).map (fun labels => (labels.dedup).length) = some 1 ∧
    (2 : Nat) < 3 := by
  refine ⟨?_, by decide, by decide, by decide⟩
  have h9 : Nat.sqrt 9 = 3 := by
    rw [show (9 : ℕ) = 3 * 3 by rfl]
    exact Nat.sqrt_eq 3
  show (sweepK cexKm cexScore
    (List.range' 2 (max (min 10 (Nat.sqrt 9)) 3 - 1)) (2, -1)).1 = 3
  rw [h9, show max (min 10 3) 3 - 1 = 2 by rfl,
    show List.range' 2 2 = [2, 3] from rfl]
  rw [sweepK_cons_few [3] 2 (-1)
    (show cexKm 2 = some [0, 0, 0, 0, 0, 0, 0, 0, 0] from rfl) (by decide)]
  rw [sweepK_cons_better [] 2 (-1)
    (show cexKm 3 = some [0, 1, 0, 1, 0, 1, 0, 1, 0] from rfl) (by decide)
    (show cexScore 3 [0, 1, 0, 1, 0, 1, 0, 1, 0] = some (1/2) from rfl)
    (by norm_num)]
  rfl

/-- C3 (amended): find_optimal_k tries k from 2 through
max(3, min(10, floor(sqrt(row_count)))) inclusive, running for each k the
fixed-seed, 10-restart k-means fit (the abstract km, whose none value is the
exception path of the try/except); it skips a k only when the fitted labels
collapse to fewer than 2 distinct clusters (not fewer than k, as claimed) or
when the fit or scoring raises; whenever some candidate scores above the
initial best of -1, the returned k is itself a scored candidate attaining
the maximum candidate score, with every smaller candidate scoring strictly
below it (ties keep the first, lowest k, since iteration is ascending and
strict comparison is used); and it returns the default k = 2 when every k
collapses to fewer than 2 distinct clusters. -/
theorem find_optimal_k_spec (n : Nat) (km : Nat → Option (List ℤ))
    (score : Nat → List ℤ → Option ℚ) :
    (∀ k, k ∈ List.range' 2 (max (min 10 (Nat.sqrt n)) 3 - 1)
      ↔ 2 ≤ k ∧ k ≤ max 3 (min 10 (Nat.sqrt n))) ∧
    ((∀ k ∈ List.range' 2 (max (min 10 (Nat.sqrt n)) 3 - 1), ∀ labels,
        km k = some labels → (labels.dedup).length < 2) →
      find_optimal_k n km score = 2) ∧
    ((∃ k ∈ List.range' 2 (max (min 10 (Nat.sqrt n)) 3 - 1), ∃ sc,
        candScore km score k = some sc ∧ -1 < sc) →
      find_optimal_k n km score
          ∈ List.range' 2 (max (min 10 (Nat.sqrt n)) 3 - 1) ∧
      ∃ best, candScore km score (find_optimal_k n km score) = some best ∧
        (∀ k ∈ List.range' 2 (max (min 10 (Nat.sqrt n)) 3 - 1), ∀ sc,
          candScore km score k = some sc → sc ≤ best) ∧
        (∀ k ∈ List.range' 2 (max (min 10 (Nat.sqrt n)) 3 - 1),
          k < find_optimal_k n km score → ∀ sc,
          candScore km score k = some sc → sc < best)) := by
  refine ⟨?_, ?_, ?_⟩
  · intro k
    rw [List.mem_range'_1]
    constructor
    · rintro ⟨h1, h2⟩
      exact ⟨h1, by rw [max_comm]; omega⟩
    · rintro ⟨h1, h2⟩
      rw [max_comm] at h2
      exact ⟨h1, by omega⟩
  · intro hall
    show (sweepK km score _ (2, -1)).1 = 2
    rw [sweepK_all_skip km score _ 2 (-1) hall]
  · rintro ⟨k, hk, sc, hcand, hgt⟩
    have hfk : find_optimal_k n km score
        = (sweepK km score
            (List.range' 2 (max (min 10 (Nat.sqrt n)) 3 - 1)) (2, -1)).1 := rfl
    rw [hfk]
    rcases sweepK_char km score
        (List.range' 2 (max (min 10 (Nat.sqrt n)) 3 - 1)) 2 (-1)
        (List.pairwise_lt_range' 2 _) with
      ⟨_, hb⟩ | ⟨hmem, hcand2, _, hub, hfirst⟩
    · exact absurd (hb k hk sc hcand) (not_le.mpr hgt)
    · exact ⟨hmem, _, hcand2, hub, hfirst⟩

/-- Witness for find_optimal_k_spec: with n = 9 the range is [2, 3]; k = 2
collapses, k = 3 is a candidate scoring 1/2 > -1, so the returned k is in
range, is a scored candidate, and its score dominates all candidates. -/
theorem find_optimal_k_spec_witness :
    find_optimal_k 9 cexKm cexScore
        ∈ List.range' 2 (max (min 10 (Nat.sqrt 9)) 3 - 1) ∧
    ∃ best, candScore cexKm cexScore (find_optimal_k 9 cexKm cexScore)
        = some best ∧
      (∀ k ∈ List.range' 2 (max (min 10 (Nat.sqrt 9)) 3 - 1), ∀ sc,
        candScore cexKm cexScore k = some sc → sc ≤ best) ∧
      (∀ k ∈ List.range' 2 (max (min 10 (Nat.sqrt 9)) 3 - 1),
        k < find_optimal_k 9 cexKm cexScore → ∀ sc,
        candScore cexKm cexScore k = some sc → sc < best) := by
  have h9 : Nat.sqrt 9 = 3 := by
    rw [show (9 : ℕ) = 3 * 3 by rfl]
    exact Nat.sqrt_eq 3
  refine (find_optimal_k_spec 9 cexKm cexScore).2.2 ⟨3, ?_, 1/2, by decide, by norm_num⟩
  rw [h9]
  decide

theorem segIn_str_append_right (n : List Char) (a b : String)
    (h : SegIn n a.data) : SegIn n (a ++ b).data := by
  rw [String.data_append]
  exact segIn_append_right _ _ _ h

theorem segIn_str_append_left (n : List Char) (a b : String)
    (h : SegIn n b.data) : SegIn n (a ++ b).data := by
  rw [String.data_append]
  exact segIn_append_left _ _ _ h

theorem mkPreprocessError_mentions (found : Nat)
    (dropped : List (String × String)) :
    SegIn ("at least 2").data (mkPreprocessError found dropped).data := by
  have hbase : SegIn ("at least 2").data
      ("Need at least 2 features for analysis, found " : String).data :=
    ⟨"Need ".data, " features for analysis, found ".data, by decide⟩
  simp only [mkPreprocessError]
  exact segIn_str_append_right _ _ _
    (segIn_str_append_right _ _ _
      (segIn_str_append_right _ _ _
        (segIn_str_append_right _ _ _ hbase)))

theorem mkPreprocessError_lists (found : Nat)
    (dropped : List (String × String)) (d : String × String)
    (hd : d ∈ dropped) :
    SegIn (d.1 ++ " (" ++ d.2 ++ ")").data
      (mkPreprocessError found dropped).data := by
  have hjoin : SegIn (d.1 ++ " (" ++ d.2 ++ ")").data
      (joinComma (dropped.map (fun d => d.1 ++ " (" ++ d.2 ++ ")"))).data :=
    segIn_join_of_mem (List.mem_map_of_mem _ hd)
  have hne : dropped ≠ [] := List.ne_nil_of_mem hd
  simp only [mkPreprocessError, if_neg hne]
  exact segIn_str_append_right _ _ _
    (segIn_str_append_left _ _ _
      (segIn_str_append_right _ _ _
        (segIn_str_append_left _ _ _ hjoin)))

/-- C1 counterexample: with two well-behaved numeric columns, the selection
["x", "y", "nope"] names an absent column, so preprocess raises the pandas
KeyError of df[columns] rather than succeeding or raising the validation
ValueError, even though 2 features would survive the drops had the selection
been valid; this contradicts the claimed dichotomy that every input either
raises the validation error or succeeds. -/
theorem preprocess_missing_selection_cex :
    preprocess ctx0 id
        [("x", ⟨.numeric, [.num 1, .num 2]⟩), ("y", ⟨.numeric, [.num 2, .num 1]⟩)]
        (some ["x", "y", "nope"]) none
      = .error (.keyErr ["nope"]) ∧
    (∀ msg, PreErr.keyErr ["nope"] ≠ PreErr.valueErr msg) ∧
    2 ≤ (preprocessCombined ctx0
        [("x", ⟨.numeric, [.num 1, .num 2]⟩), ("y", ⟨.numeric, [.num 2, .num 1]⟩)]
        (some ["x", "y"]) none).1.length := by
  refine ⟨by rfl, ?_, by decide⟩
  intro msg h
  cases h

/-- C1 (amended): a nonempty column selection naming columns absent from the
frame makes preprocess raise the KeyError of df[columns], before any drop
runs; for every selection passing that lookup (None, empty, or all names
present), preprocess raises the validation error exactly when fewer than 2
feature columns remain after all drops, the message mentions "at least 2"
and lists each dropped column with its reason, and otherwise it succeeds
with feature_names of length at least 2. -/
theorem preprocess_feature_floor (ctx : PdCtx) (scaler : OptCol → OptCol)
    (df : DF) (columns : Option (List String))
    (categorical_columns : Option (List String)) :
    (∀ cols, columns = some cols → cols ≠ [] → missingSel df cols ≠ [] →
      preprocess ctx scaler df columns categorical_columns
        = .error (.keyErr (missingSel df cols))) ∧
    (selErr df columns = none →
      (∀ msg, preprocess ctx scaler df columns categorical_columns
          = .error (.valueErr msg) →
        ((preprocessCombined ctx df columns categorical_columns).1.length < 2 ∧
         SegIn ("at least 2").data msg.data ∧
         ∀ d ∈ (preprocessCombined ctx df columns categorical_columns).2.2.1,
           SegIn (d.1 ++ " (" ++ d.2 ++ ")").data msg.data)) ∧
      (∀ r, preprocess ctx scaler df columns categorical_columns = .ok r →
        2 ≤ r.feature_names.length) ∧
      ((preprocessCombined ctx df columns categorical_columns).1.length < 2 ↔
        ∃ msg, preprocess ctx scaler df columns categorical_columns
          = .error (.valueErr msg))) := by
  constructor
  · intro cols hceq hne hmiss
    subst hceq
    have hsel : selErr df (some cols) = some (missingSel df cols) := by
      simp only [selErr]
      rw [if_neg hne, if_neg hmiss]
    simp only [preprocess]
    rw [hsel]
  · intro hsel
    have hpp : preprocess ctx scaler df columns categorical_columns
        = preprocessChecked ctx scaler df columns categorical_columns := by
      simp only [preprocess]
      rw [hsel]
    by_cases h : ((preprocessCombined ctx df columns
        categorical_columns).1.map (fun x => x.1)).length < 2
    · have hpe : preprocessChecked ctx scaler df columns categorical_columns
          = .error (.valueErr (mkPreprocessError
              (((preprocessCombined ctx df columns
                categorical_columns).1.map (fun x => x.1)).length)
              (preprocessCombined ctx df columns categorical_columns).2.2.1)) := by
        simp only [preprocessChecked]
        rw [if_pos h]
      refine ⟨?_, ?_, ?_, ?_⟩
      · intro msg hmsg
        rw [hpp, hpe] at hmsg
        injection hmsg with h1
        injection h1 with h2
        exact ⟨by rwa [List.length_map] at h,
          h2 ▸ mkPreprocessError_mentions _ _,
          fun d hdm => h2 ▸ mkPreprocessError_lists _ _ d hdm⟩
      · intro r hr
        rw [hpp, hpe] at hr
        cases hr
      · intro _
        exact ⟨_, by rw [hpp]; exact hpe⟩
      · intro _
        rwa [List.length_map] at h
    · have hok : preprocessChecked ctx scaler df columns categorical_columns
          = .ok { numeric_df := (preprocessCombined ctx df columns categorical_columns).1,
                  scaled_df := ((preprocessCombined ctx df columns
                    categorical_columns).1).map (fun p => (p.1, scaler p.2)),
                  feature_names := ((preprocessCombined ctx df columns
                    categorical_columns).1).map (fun x => x.1),
                  encoding_info := (preprocessCombined ctx df columns
                    categorical_columns).2.1,
                  dropped_columns := (preprocessCombined ctx df columns
                    categorical_columns).2.2.1 } := by
        simp only [preprocessChecked]
        rw [if_neg h]
      refine ⟨?_, ?_, ?_, ?_⟩
      · intro msg hmsg
        rw [hpp, hok] at hmsg
        cases hmsg
      · intro r hr
        rw [hpp, hok] at hr
        injection hr with h1
        rw [← h1]
        exact not_lt.mp h
      · intro hlt
        exfalso
        rw [List.length_map] at h
        exact h hlt
      · rintro ⟨msg, hmsg⟩
        rw [hpp, hok] at hmsg
        cases hmsg

/-- Witness for preprocess_feature_floor: the selection ["x", "nope"] names
the absent column "nope" and raises the KeyError; with no selection the
single numeric column leaves only 1 feature, so the validation error
fires. -/
theorem preprocess_feature_floor_witness :
    preprocess ctx0 id [("x", ⟨.numeric, [.num 1, .num 2]⟩)]
        (some ["x", "nope"]) none
      = .error (.keyErr ["nope"]) ∧
    (preprocessCombined ctx0 [("x", ⟨.numeric, [.num 1, .num 2]⟩)]
        none none).1.length < 2 ∧
    SegIn ("at least 2").data
      ("Need at least 2 features for analysis, found 1. Try selecting more columns or a different dataset." : String).data := by
  constructor
  · exact (preprocess_feature_floor ctx0 id
      [("x", ⟨.numeric, [.num 1, .num 2]⟩)] (some ["x", "nope"]) none).1
      ["x", "nope"] rfl (by decide) (by decide)
  · have h := (((preprocess_feature_floor ctx0 id
        [("x", ⟨.numeric, [.num 1, .num 2]⟩)] none none).2 rfl).1
      "Need at least 2 features for analysis, found 1. Try selecting more columns or a different dataset."
      (by rfl))
    exact ⟨h.1, h.2.1⟩
